import Mathlib

/-!
Verification of the EcoTrack backend participation/registration core.

This file shallowly embeds the challenge and event data-access layers
(`src/models/challengeModel.js` and `src/models/eventModel.js`, first
module in each file) in Lean 4 and proves or refutes the specification's
claims about them.

Modelling conventions:
* A MongoDB collection is a `List` of documents; `insertOne` appends
  (failing when the unique index on `id` would be violated — the schemas
  declare `unique: true` on `id`/`slug` and `scripts` create a unique
  index on `events.id`), `findOne` is `List.find?`, `updateOne` updates
  the first document matching the filter, `deleteOne` removes it.
* JS `Date` values and `Date.now()` readings are `Nat` milliseconds.
* JS numbers holding counts/capacities are `Int` (they are incremented
  and decremented and can in principle go negative).
* Each JS return site maps to one constructor of a result inductive;
  a thrown JS error is an `Except.error`.
-/

/-- MongoDB `updateOne`: update the first document matching the filter
`p` with the update expression `u`.  Returns the updated document
(`none` when nothing matched, so `modifiedCount = 0`) and the new
collection contents. -/
def mongoUpdateFirst {α : Type} (p : α → Bool) (u : α → α) : List α → Option α × List α
  | [] => (none, [])
  | x :: rest =>
    if p x then (some (u x), u x :: rest)
    else
      let r := mongoUpdateFirst p u rest
      (r.1, x :: r.2)

/-- MongoDB `deleteOne`: remove the first document matching `p`.
Returns whether a document was deleted (`deletedCount > 0`) and the new
collection contents. -/
def mongoDeleteFirst {α : Type} (p : α → Bool) : List α → Bool × List α
  | [] => (false, [])
  | x :: rest =>
    if p x then (true, rest)
    else
      let r := mongoDeleteFirst p rest
      (r.1, x :: r.2)

theorem mongoUpdateFirst_none_of_all_false {α : Type} {p : α → Bool} {u : α → α} :
    ∀ {db : List α}, (∀ x ∈ db, p x = false) → mongoUpdateFirst p u db = (none, db) := by
  intro db
  induction db with
  | nil => intro _; rfl
  | cons x rest ih =>
    intro h
    have hx := h x (List.mem_cons_self x rest)
    simp only [mongoUpdateFirst, hx, Bool.false_eq_true, if_false]
    rw [ih (fun y hy => h y (List.mem_cons_of_mem x hy))]

theorem mongoUpdateFirst_isSome_eq_any {α : Type} (p : α → Bool) (u : α → α) :
    ∀ (db : List α), (mongoUpdateFirst p u db).1.isSome = db.any p := by
  intro db
  induction db with
  | nil => rfl
  | cons x rest ih =>
    by_cases hx : p x = true
    · simp [mongoUpdateFirst, hx]
    · simp only [Bool.not_eq_true] at hx
      simp [mongoUpdateFirst, hx, ih]

theorem mongoUpdateFirst_forall {α : Type} {P : α → Prop} {p : α → Bool} {u : α → α}
    (hstep : ∀ x, P x → p x = true → P (u x)) :
    ∀ {db : List α}, (∀ x ∈ db, P x) → ∀ y ∈ (mongoUpdateFirst p u db).2, P y := by
  intro db
  induction db with
  | nil => intro _ y hy; simp [mongoUpdateFirst] at hy
  | cons x rest ih =>
    intro h y hy
    by_cases hx : p x = true
    · simp only [mongoUpdateFirst, hx, if_true] at hy
      rcases List.mem_cons.mp hy with hy | hy
      · exact hy ▸ hstep x (h x (List.mem_cons_self x rest)) hx
      · exact h y (List.mem_cons_of_mem x hy)
    · simp only [Bool.not_eq_true] at hx
      simp only [mongoUpdateFirst, hx, Bool.false_eq_true, if_false] at hy
      rcases List.mem_cons.mp hy with hy | hy
      · exact hy ▸ h x (List.mem_cons_self x rest)
      · exact ih (fun z hz => h z (List.mem_cons_of_mem x hz)) y hy

theorem mongoUpdateFirst_map_eq {α β : Type} (p : α → Bool) (u : α → α) (f : α → β)
    (hf : ∀ x, f (u x) = f x) :
    ∀ (db : List α), ((mongoUpdateFirst p u db).2).map f = db.map f := by
  intro db
  induction db with
  | nil => rfl
  | cons x rest ih =>
    by_cases hx : p x = true
    · simp [mongoUpdateFirst, hx, hf]
    · simp only [Bool.not_eq_true] at hx
      simp [mongoUpdateFirst, hx, ih]

theorem mongoDeleteFirst_sublist {α : Type} (p : α → Bool) :
    ∀ (db : List α), (mongoDeleteFirst p db).2.Sublist db := by
  intro db
  induction db with
  | nil => exact List.Sublist.refl _
  | cons x rest ih =>
    by_cases hx : p x = true
    · simp only [mongoDeleteFirst, hx, if_true]
      exact List.sublist_cons_self x rest
    · simp only [Bool.not_eq_true] at hx
      simp only [mongoDeleteFirst, hx, Bool.false_eq_true, if_false]
      exact List.Sublist.cons₂ x ih

/-- Splitting property of `List.find?`: the found element cuts the list
into a prefix on which the predicate fails, the element itself, and a
suffix. -/
theorem find?_split {α : Type} {p : α → Bool} :
    ∀ {db : List α} {e : α}, db.find? p = some e →
      ∃ pre post, db = pre ++ e :: post ∧ (∀ x ∈ pre, p x = false) ∧ p e = true := by
  intro db
  induction db with
  | nil => intro e h; simp [List.find?] at h
  | cons x rest ih =>
    intro e h
    by_cases hx : p x = true
    · rw [List.find?_cons_of_pos _ hx] at h
      refine ⟨[], rest, by simp [(Option.some.injEq _ _).mp h], by simp, ?_⟩
      cases (Option.some.injEq _ _).mp h
      exact hx
    · simp only [Bool.not_eq_true] at hx
      rw [List.find?_cons_of_neg _ (by simp [hx])] at h
      obtain ⟨pre, post, hsplit, hpre, he⟩ := ih h
      exact ⟨x :: pre, post, by simp [hsplit], by
        intro y hy
        rcases List.mem_cons.mp hy with hy | hy
        · exact hy ▸ hx
        · exact hpre y hy, he⟩

theorem find?_eq_none_of_all_false {α : Type} {p : α → Bool} {db : List α}
    (h : ∀ x ∈ db, p x = false) : db.find? p = none := by
  rw [List.find?_eq_none]
  intro x hx
  simp [h x hx]

/-- Behaviour of `mongoUpdateFirst` on a list split at the first
matching position of a filter. -/
theorem mongoUpdateFirst_append {α : Type} {p : α → Bool} {u : α → α}
    {pre : List α} (hpre : ∀ x ∈ pre, p x = false) (e : α) (post : List α) :
    mongoUpdateFirst p u (pre ++ e :: post) =
      if p e then (some (u e), pre ++ u e :: post)
      else ((mongoUpdateFirst p u post).1, pre ++ e :: (mongoUpdateFirst p u post).2) := by
  induction pre with
  | nil =>
    by_cases he : p e = true
    · simp [mongoUpdateFirst, he]
    · simp only [Bool.not_eq_true] at he
      simp [mongoUpdateFirst, he]
  | cons x rest ih =>
    have hx := hpre x (List.mem_cons_self x rest)
    have ih := ih (fun y hy => hpre y (List.mem_cons_of_mem x hy))
    by_cases he : p e = true
    · simp only [he, if_true] at ih
      simp [mongoUpdateFirst, hx, ih, he]
    · simp only [Bool.not_eq_true] at he
      simp only [he, Bool.false_eq_true, if_false] at ih
      simp [mongoUpdateFirst, hx, ih, he]

theorem mongoDeleteFirst_append {α : Type} {p : α → Bool}
    {pre : List α} (hpre : ∀ x ∈ pre, p x = false) (e : α) (post : List α)
    (he : p e = true) :
    mongoDeleteFirst p (pre ++ e :: post) = (true, pre ++ post) := by
  induction pre with
  | nil => simp [mongoDeleteFirst, he]
  | cons x rest ih =>
    have hx := hpre x (List.mem_cons_self x rest)
    have ih := ih (fun y hy => hpre y (List.mem_cons_of_mem x hy))
    simp [mongoDeleteFirst, hx, ih]

/-! ### Decimal rendering of numbers

JS template literals render the timestamp with the standard decimal
notation of a number.  `decimalDigits`/`decimalString` model that
primitive: most-significant-first decimal digits, no leading zeros,
`"0"` for zero. -/

/-- Decimal digit characters of `n` (most significant first), with an
explicit fuel argument to make the recursion structural. -/
def decimalDigits : Nat → Nat → List Char
  | 0, _ => []
  | fuel + 1, n =>
    if n = 0 then [] else decimalDigits fuel (n / 10) ++ [Nat.digitChar (n % 10)]

/-- Decimal string of a natural number, as produced by JS string
interpolation of a number. -/
def decimalString (n : Nat) : String :=
  if n = 0 then "0" else (decimalDigits n n).asString

theorem decimalDigits_zero : ∀ (f : Nat), decimalDigits f 0 = [] := by
  intro f; cases f <;> simp [decimalDigits]

theorem decimalDigits_fuel :
    ∀ (n f g : Nat), n ≤ f → n ≤ g → decimalDigits f n = decimalDigits g n := by
  intro n
  induction n using Nat.strong_induction_on with
  | _ n ih =>
    intro f g hf hg
    rcases Nat.eq_zero_or_pos n with hn | hn
    · subst hn; rw [decimalDigits_zero, decimalDigits_zero]
    · obtain ⟨f', rfl⟩ : ∃ f', f = f' + 1 := ⟨f - 1, by omega⟩
      obtain ⟨g', rfl⟩ : ∃ g', g = g' + 1 := ⟨g - 1, by omega⟩
      have hdiv : n / 10 < n := Nat.div_lt_self hn (by omega)
      simp only [decimalDigits, Nat.pos_iff_ne_zero.mp hn, if_false]
      rw [ih (n / 10) hdiv f' g' (by omega) (by omega)]

theorem decimalDigits_ne_nil (n f : Nat) (hn : 0 < n) (hf : n ≤ f) :
    decimalDigits f n ≠ [] := by
  obtain ⟨f', rfl⟩ : ∃ f', f = f' + 1 := ⟨f - 1, by omega⟩
  simp [decimalDigits, Nat.pos_iff_ne_zero.mp hn]

theorem digitChar_inj_lt :
    ∀ a < 10, ∀ b < 10, Nat.digitChar a = Nat.digitChar b → a = b := by decide

theorem decimalDigits_inj :
    ∀ (m n f g : Nat), 0 < m → 0 < n → m ≤ f → n ≤ g →
      decimalDigits f m = decimalDigits g n → m = n := by
  intro m
  induction m using Nat.strong_induction_on with
  | _ m ih =>
    intro n f g hm hn hf hg heq
    obtain ⟨f', rfl⟩ : ∃ f', f = f' + 1 := ⟨f - 1, by omega⟩
    obtain ⟨g', rfl⟩ : ∃ g', g = g' + 1 := ⟨g - 1, by omega⟩
    simp only [decimalDigits, Nat.pos_iff_ne_zero.mp hm, Nat.pos_iff_ne_zero.mp hn,
      if_false] at heq
    have hlen : ([Nat.digitChar (m % 10)]).length = ([Nat.digitChar (n % 10)]).length := rfl
    obtain ⟨hpre, hlast⟩ := List.append_inj' heq hlen
    have hmod : m % 10 = n % 10 := by
      have := List.head_eq_of_cons_eq hlast
      exact digitChar_inj_lt (m % 10) (Nat.mod_lt m (by omega)) (n % 10)
        (Nat.mod_lt n (by omega)) this
    rcases Nat.eq_zero_or_pos (m / 10) with hdm | hdm
    · rcases Nat.eq_zero_or_pos (n / 10) with hdn | hdn
      · omega
      · exfalso
        rw [hdm, decimalDigits_zero] at hpre
        exact decimalDigits_ne_nil (n / 10) g' hdn (by omega) hpre.symm
    · rcases Nat.eq_zero_or_pos (n / 10) with hdn | hdn
      · exfalso
        rw [hdn, decimalDigits_zero] at hpre
        exact decimalDigits_ne_nil (m / 10) f' hdm (by omega) hpre
      · have hd := ih (m / 10) (Nat.div_lt_self hm (by omega)) (n / 10) f' g' hdm hdn
          (by omega) (by omega) hpre
        omega

theorem decimalString_injective : Function.Injective decimalString := by
  intro m n heq
  unfold decimalString at heq
  rcases Nat.eq_zero_or_pos m with hm | hm <;> rcases Nat.eq_zero_or_pos n with hn | hn
  · omega
  · exfalso
    simp only [hm, if_true, Nat.pos_iff_ne_zero.mp hn, if_false] at heq
    have hdata : "0".data = (decimalDigits n n).asString.data := congrArg String.data heq
    obtain ⟨f', hf'⟩ : ∃ f', n = f' + 1 := ⟨n - 1, by omega⟩
    rw [hf'] at hdata
    simp only [decimalDigits, Nat.pos_iff_ne_zero.mp (hf' ▸ hn), if_false,
      List.asString] at hdata
    have : ['0'] = decimalDigits f' ((f' + 1) / 10) ++ [Nat.digitChar ((f' + 1) % 10)] := hdata
    rcases Nat.eq_zero_or_pos ((f' + 1) / 10) with hd | hd
    · rw [hd, decimalDigits_zero] at this
      simp only [List.nil_append, List.cons.injEq] at this
      have : (f' + 1) % 10 = 0 :=
        digitChar_inj_lt _ (Nat.mod_lt _ (by omega)) 0 (by omega) this.1.symm
      omega
    · have hne := decimalDigits_ne_nil ((f' + 1) / 10) f' hd (by omega)
      rcases hx : decimalDigits f' ((f' + 1) / 10) with _ | ⟨c, cs⟩
      · exact hne hx
      · rw [hx] at this; simp at this
  · exfalso
    simp only [hn, if_true, Nat.pos_iff_ne_zero.mp hm, if_false] at heq
    have hdata : (decimalDigits m m).asString.data = "0".data := congrArg String.data heq
    obtain ⟨f', hf'⟩ : ∃ f', m = f' + 1 := ⟨m - 1, by omega⟩
    rw [hf'] at hdata
    simp only [decimalDigits, Nat.pos_iff_ne_zero.mp (hf' ▸ hm), if_false,
      List.asString] at hdata
    have : decimalDigits f' ((f' + 1) / 10) ++ [Nat.digitChar ((f' + 1) % 10)] = ['0'] := hdata
    rcases Nat.eq_zero_or_pos ((f' + 1) / 10) with hd | hd
    · rw [hd, decimalDigits_zero] at this
      simp only [List.nil_append, List.cons.injEq] at this
      have : (f' + 1) % 10 = 0 :=
        digitChar_inj_lt _ (Nat.mod_lt _ (by omega)) 0 (by omega) this.1
      omega
    · have hne := decimalDigits_ne_nil ((f' + 1) / 10) f' hd (by omega)
      rcases hx : decimalDigits f' ((f' + 1) / 10) with _ | ⟨c, cs⟩
      · exact hne hx
      · rw [hx] at this; simp at this
  · simp only [Nat.pos_iff_ne_zero.mp hm, Nat.pos_iff_ne_zero.mp hn, if_false] at heq
    have hdata := congrArg String.data heq
    simp only [List.asString] at hdata
    exact decimalDigits_inj m n m n hm hn (le_refl m) (le_refl n) hdata

/-! ### The event model (`src/models/eventModel.js`, first module)

Fields not involved in any claim (location, organizer, duration,
requirements, benefits, image) are omitted; they are plain data copied
verbatim and never consulted by the logic under verification. -/

/-- One entry of the embedded `participants` array. -/
structure Participant where
  userId : String
  joinedAt : Nat
  status : String
deriving Repr, DecidableEq

/-- An `events` collection document. -/
structure Event where
  id : String
  title : String
  description : String
  date : Nat
  capacity : Int
  registeredParticipants : Int
  createdBy : String
  status : String
  participants : List Participant
  updatedAt : Nat
deriving Repr, DecidableEq

/-- `eventsCollection.findOne({ id: eventId })`. -/
def findEvent (db : List Event) (eventId : String) : Option Event :=
  db.find? (fun e => e.id == eventId)

/-- The slug part of `generateEventId`: lower-case, strip every
character outside `[a-z0-9\s-]`, collapse each whitespace run to a
hyphen, truncate to 50 characters. -/
def jsWhitespace (c : Char) : Bool :=
  c = ' ' || c = '\t' || c = '\n' || c = '\r'

def evSlugChar (c : Char) : Bool :=
  ('a' ≤ c && c ≤ 'z') || ('0' ≤ c && c ≤ '9') || jsWhitespace c || c = '-'

/-- Model of `.replace(/\s+/g, '-')`: each maximal run of whitespace
becomes one hyphen.  The flag records whether the previous character
belonged to a whitespace run whose hyphen is already emitted. -/
def squashWsAux : Bool → List Char → List Char
  | _, [] => []
  | prevWs, c :: rest =>
    if jsWhitespace c then
      if prevWs then squashWsAux true rest
      else '-' :: squashWsAux true rest
    else c :: squashWsAux false rest

def squashWsToHyphen (l : List Char) : List Char :=
  squashWsAux false l

/-- `generateEventId(title)` with the `Date.now()` reading passed
explicitly: slugified title plus `-` plus the millisecond timestamp. -/
def generateEventId (title : String) (nowMs : Nat) : String :=
  (((squashWsToHyphen ((title.data.map Char.toLower).filter evSlugChar)).take 50).asString)
    ++ "-" ++ decimalString nowMs

/-- Input fields of `createEvent` that the verified logic consults. -/
structure EventData where
  title : String
  description : String
  date : Nat
  capacity : Int
deriving Repr, DecidableEq

/-- `createEvent(eventData, userId)`: build the document with
`registeredParticipants: 0`, `status: 'active'`, empty `participants`,
and insert it.  `insertOne` fails (unique index on `id`,
`scripts/initEventIndexes`) when the id already exists; in that case the
collection is unchanged and no document is returned. -/
def createEvent (db : List Event) (data : EventData) (userId : String) (now : Nat) :
    Option Event × List Event :=
  let event : Event := {
    id := generateEventId data.title now
    title := data.title
    description := data.description
    date := data.date
    capacity := data.capacity
    registeredParticipants := 0
    createdBy := userId
    status := "active"
    participants := []
    updatedAt := now }
  if db.any (fun x => x.id == event.id) then (none, db)
  else (some event, db ++ [event])

/-- Result of `joinEvent`, one constructor per `return` site. -/
inductive EvJoinRes where
  /-- `{ error: 'Event not found', code: 404 }` -/
  | notFound
  /-- `{ error: 'Event creators cannot join their own events', code: 400 }` -/
  | creatorCannotJoin
  /-- `{ error: 'Cannot join inactive events', code: 400 }` -/
  | notActive
  /-- `{ error: 'Cannot join past events', code: 400 }` -/
  | pastEvent
  /-- `{ error: 'You have already joined this event', code: 400 }` -/
  | alreadyJoined
  /-- `{ error: 'Event is full. No spots remaining.', code: 400 }` -/
  | full
  /-- `{ event: updatedEvent, participant, spotsRemaining }` (the re-read). -/
  | success (updated : Option Event)
deriving Repr, DecidableEq

/-- The filter of `joinEvent`'s conditional `updateOne`:
`{ id, registeredParticipants: { $lt: event.capacity }, status: 'active',
'participants.userId': { $ne: userId } }` (capacity from the earlier read). -/
def evJoinFilter (eventId userId : String) (cap : Int) (e : Event) : Bool :=
  e.id == eventId && e.registeredParticipants < cap && e.status == "active"
    && e.participants.all (fun p => p.userId != userId)

/-- The update expression of `joinEvent`'s conditional `updateOne`:
`$inc registeredParticipants by 1`, `$push` a fresh `joined` entry,
`$set updatedAt`. -/
def evJoinUpdate (userId : String) (now : Nat) (e : Event) : Event :=
  { e with
    registeredParticipants := e.registeredParticipants + 1
    participants := e.participants ++ [⟨userId, now, "joined"⟩]
    updatedAt := now }

/-- `joinEvent(eventId, userId)` with the clock passed explicitly. -/
def joinEvent (db : List Event) (eventId userId : String) (now : Nat) :
    EvJoinRes × List Event :=
  match findEvent db eventId with
  | none => (.notFound, db)
  | some event =>
    if event.createdBy == userId then (.creatorCannotJoin, db)
    else if event.status != "active" then (.notActive, db)
    else if event.date < now then (.pastEvent, db)
    else if event.participants.any (fun p => p.userId == userId && p.status == "joined") then
      (.alreadyJoined, db)
    else
      let r := mongoUpdateFirst (evJoinFilter eventId userId event.capacity)
        (evJoinUpdate userId now) db
      if r.1.isSome then (.success (findEvent r.2 eventId), r.2) else (.full, db)

/-- Result of `leaveEvent`, one constructor per `return` site. -/
inductive EvLeaveRes where
  /-- `{ error: 'Event not found', code: 404 }` -/
  | notFound
  /-- `{ error: 'You are not a participant of this event', code: 400 }` -/
  | notParticipant
  /-- `{ error: 'Failed to leave event', code: 400 }` -/
  | failed
  /-- `{ event: updatedEvent, spotsRemaining }` -/
  | success (updated : Option Event)
deriving Repr, DecidableEq

/-- Filter of `leaveEvent`'s `updateOne`: the id plus an `$elemMatch`
on a `joined` entry of the caller. -/
def evLeaveFilter (eventId userId : String) (e : Event) : Bool :=
  e.id == eventId && e.participants.any (fun p => p.userId == userId && p.status == "joined")

/-- Update expression of `leaveEvent`'s `updateOne`: decrement the
count and flip every array element matching the `arrayFilters`
(`elem.userId = userId`, `elem.status = 'joined'`) to `left`. -/
def evLeaveUpdate (userId : String) (now : Nat) (e : Event) : Event :=
  { e with
    registeredParticipants := e.registeredParticipants - 1
    participants := e.participants.map (fun p =>
      if p.userId == userId && p.status == "joined" then { p with status := "left" } else p)
    updatedAt := now }

/-- `leaveEvent(eventId, userId)` with the clock passed explicitly. -/
def leaveEvent (db : List Event) (eventId userId : String) (now : Nat) :
    EvLeaveRes × List Event :=
  match findEvent db eventId with
  | none => (.notFound, db)
  | some event =>
    if event.participants.any (fun p => p.userId == userId && p.status == "joined") then
      let r := mongoUpdateFirst (evLeaveFilter eventId userId) (evLeaveUpdate userId now) db
      if r.1.isSome then (.success (findEvent r.2 eventId), r.2) else (.failed, db)
    else (.notParticipant, db)

/-- An `updateEvent` patch.  The JS handler whitelists `allowedFields`;
the fields below are the whitelisted ones the verified logic consults
(the remaining whitelisted fields — location, organizer, duration,
requirements, benefits, image — are plain strings copied the same way as
`description`).  `participants` and `registeredParticipants` are NOT in
the whitelist and therefore absent here. -/
structure EventPatch where
  title : Option String := none
  description : Option String := none
  date : Option Nat := none
  capacity : Option Int := none
  status : Option String := none
deriving Repr, DecidableEq

/-- Result of `updateEvent`, one constructor per `return` site. -/
inductive EvUpdateRes where
  /-- `{ error: 'Event not found', code: 404 }` -/
  | notFound
  /-- `{ error: 'You are not authorized to update this event', code: 403 }` -/
  | forbidden
  /-- `{ error: 'Cannot reduce capacity below current participant count', code: 400 }` -/
  | invalidCapacity
  /-- `{ error: 'Cannot change date to past', code: 400 }` -/
  | pastDate
  /-- `{ event: updatedEvent }` -/
  | success (updated : Option Event)
deriving Repr, DecidableEq

/-- The `$set` document built from `allowedFields`. -/
def applyEventPatch (patch : EventPatch) (now : Nat) (e : Event) : Event :=
  { e with
    title := patch.title.getD e.title
    description := patch.description.getD e.description
    date := patch.date.getD e.date
    capacity := patch.capacity.getD e.capacity
    status := patch.status.getD e.status
    updatedAt := now }

/-- `updateEvent(eventId, updateData, userId)` with the clock passed
explicitly. -/
def updateEvent (db : List Event) (eventId : String) (patch : EventPatch)
    (userId : String) (now : Nat) : EvUpdateRes × List Event :=
  match findEvent db eventId with
  | none => (.notFound, db)
  | some event =>
    if event.createdBy != userId then (.forbidden, db)
    else if patch.capacity.any (fun k => k < event.registeredParticipants) then
      (.invalidCapacity, db)
    else if patch.date.any (fun d => d < now) then (.pastDate, db)
    else
      let r := mongoUpdateFirst (fun e => e.id == eventId) (applyEventPatch patch now) db
      (.success (findEvent r.2 eventId), r.2)

/-- Result of `deleteEvent`, one constructor per `return` site. -/
inductive EvDeleteRes where
  /-- `{ error: 'Event not found', code: 404 }` -/
  | notFound
  /-- `{ error: 'You are not authorized to delete this event', code: 403 }` -/
  | forbidden
  /-- `{ cancelled: true, message: 'Event marked as cancelled …' }` -/
  | cancelled
  /-- `{ deleted: true, message: 'Event deleted successfully' }` -/
  | deleted
deriving Repr, DecidableEq

/-- `deleteEvent(eventId, userId)` with the clock passed explicitly. -/
def deleteEvent (db : List Event) (eventId userId : String) (now : Nat) :
    EvDeleteRes × List Event :=
  match findEvent db eventId with
  | none => (.notFound, db)
  | some event =>
    if event.createdBy != userId then (.forbidden, db)
    else if event.registeredParticipants > 0 then
      let r := mongoUpdateFirst (fun e => e.id == eventId)
        (fun e => { e with status := "cancelled", updatedAt := now }) db
      (.cancelled, r.2)
    else
      (.deleted, (mongoDeleteFirst (fun e => e.id == eventId) db).2)

/-! ### The challenge model (`src/models/challengeModel.js`, first module)

Same conventions as for events.  Challenges have no capacity and no
date-based join restriction; their `status` strings are the same but
participation entries use the same `'joined'`/`'left'` statuses. -/

/-- A `challenges` collection document (mongoose `Challenge` model).
Fields not consulted by the verified logic (category, descriptions,
image, communityImpact, dates, featured) are omitted. -/
structure Challenge where
  id : String
  title : String
  registeredParticipants : Int
  createdBy : String
  status : String
  participants : List Participant
  updatedAt : Nat
deriving Repr, DecidableEq

/-- `Challenge.findOne({ id })`. -/
def findChallenge (db : List Challenge) (id : String) : Option Challenge :=
  db.find? (fun c => c.id == id)

/-- JS `\w` (word character): letters, digits, underscore. -/
def jsWordChar (c : Char) : Bool :=
  ('a' ≤ c && c ≤ 'z') || ('A' ≤ c && c ≤ 'Z') || ('0' ≤ c && c ≤ '9') || c = '_'

/-- Characters kept by `generateChallengeId`'s first replace
(`/[^\w\s-]/g` removed): word characters, whitespace, hyphen. -/
def chSlugChar (c : Char) : Bool :=
  jsWordChar c || jsWhitespace c || c = '-'

/-- Characters collapsed to a single hyphen by the second replace
(`/[\s_-]+/g` → `'-'`). -/
def chSep (c : Char) : Bool :=
  jsWhitespace c || c = '_' || c = '-'

/-- Model of `.replace(/[\s_-]+/g, '-')`: each maximal run of
whitespace, underscores and hyphens becomes one hyphen. -/
def squashSepAux : Bool → List Char → List Char
  | _, [] => []
  | prevSep, c :: rest =>
    if chSep c then
      if prevSep then squashSepAux true rest
      else '-' :: squashSepAux true rest
    else c :: squashSepAux false rest

def squashSepToHyphen (l : List Char) : List Char :=
  squashSepAux false l

/-- JS `String.prototype.trim()` (whitespace from both ends). -/
def jsTrim (l : List Char) : List Char :=
  ((l.dropWhile jsWhitespace).reverse.dropWhile jsWhitespace).reverse

/-- Model of `.replace(/^-+|-+$/g, '')`. -/
def stripHyphens (l : List Char) : List Char :=
  ((l.dropWhile (fun c => c = '-')).reverse.dropWhile (fun c => c = '-')).reverse

/-- `generateChallengeId(title)` with the second-resolution clock
reading (`Math.floor(Date.now() / 1000)`) passed explicitly. -/
def generateChallengeId (title : String) (nowSec : Nat) : String :=
  ((stripHyphens (squashSepToHyphen
      ((jsTrim (title.data.map Char.toLower)).filter chSlugChar))).asString)
    ++ "-" ++ decimalString nowSec

/-- Input fields of `createChallenge` that the verified logic consults. -/
structure ChallengeData where
  title : String
deriving Repr, DecidableEq

/-- `createChallenge(challengeData, userId)`: build the document with
`participants: []`, `registeredParticipants: 0`, `status: 'active'` and
save it (`id` carries a mongoose unique index, so saving a duplicate id
fails and leaves the collection unchanged). -/
def createChallenge (db : List Challenge) (data : ChallengeData) (userId : String)
    (now : Nat) : Option Challenge × List Challenge :=
  let challenge : Challenge := {
    id := generateChallengeId data.title (now / 1000)
    title := data.title
    registeredParticipants := 0
    createdBy := userId
    status := "active"
    participants := []
    updatedAt := now }
  if db.any (fun x => x.id == challenge.id) then (none, db)
  else (some challenge, db ++ [challenge])

/-- A thrown JS runtime error. -/
inductive JsError where
  | referenceError (msg : String)
deriving Repr, DecidableEq

/-- Result of `joinChallenge`.  The only reachable outcome besides a
thrown error is success: when the conditional update matches nothing,
the code executes `const challenge = await collection.findOne({ id })`,
but `collection` is not defined anywhere in the module, so a
`ReferenceError` is thrown and the typed `not_found` /
`creator_cannot_join` / `not_active` / `already_joined` / `unknown`
returns below that line are unreachable. -/
inductive ChJoinRes where
  /-- `{ success: true, challenge: updatedChallenge }` -/
  | success (updated : Option Challenge)
deriving Repr, DecidableEq

/-- Filter of `joinChallenge`'s conditional `updateOne`:
`{ id, status: 'active', 'participants.userId': { $ne: userId },
createdBy: { $ne: userId } }`. -/
def chJoinFilter (id userId : String) (c : Challenge) : Bool :=
  c.id == id && c.status == "active"
    && c.participants.all (fun p => p.userId != userId)
    && c.createdBy != userId

/-- Update expression of `joinChallenge`'s conditional `updateOne`. -/
def chJoinUpdate (userId : String) (now : Nat) (c : Challenge) : Challenge :=
  { c with
    registeredParticipants := c.registeredParticipants + 1
    participants := c.participants ++ [⟨userId, now, "joined"⟩]
    updatedAt := now }

/-- `joinChallenge(id, userId)` with the clock passed explicitly. -/
def joinChallenge (db : List Challenge) (id userId : String) (now : Nat) :
    Except JsError ChJoinRes × List Challenge :=
  let r := mongoUpdateFirst (chJoinFilter id userId) (chJoinUpdate userId now) db
  if r.1.isSome then (.ok (.success (findChallenge r.2 id)), r.2)
  else (.error (.referenceError "collection is not defined"), db)

/-- Result of `leaveChallenge`, one constructor per `return` site. -/
inductive ChLeaveRes where
  /-- `{ success: false, error: 'not_joined' }` (any of the three sites). -/
  | notJoined
  /-- `{ success: true, challenge: updatedChallenge }` -/
  | success (updated : Option Challenge)
deriving Repr, DecidableEq

/-- `$set: { participants.<idx>.status: 'left' }`: set the status of
the array element at position `idx`. -/
def setParticipantLeft : List Participant → Nat → List Participant
  | [], _ => []
  | p :: rest, 0 => { p with status := "left" } :: rest
  | p :: rest, Nat.succ i => p :: setParticipantLeft rest i

/-- Filter of `leaveChallenge`'s first read:
`{ id, participants: { $elemMatch: { userId, status: 'joined' } } }`. -/
def chLeaveFindFilter (id userId : String) (c : Challenge) : Bool :=
  c.id == id && c.participants.any (fun p => p.userId == userId && p.status == "joined")

/-- Filter of `leaveChallenge`'s `updateOne`:
`{ id, 'participants.userId': userId }` (any entry of the user,
regardless of status). -/
def chLeaveUpdateFilter (id userId : String) (c : Challenge) : Bool :=
  c.id == id && c.participants.any (fun p => p.userId == userId)

/-- Update expression of `leaveChallenge`'s `updateOne`: decrement the
count and set `participants.<idx>.status` to `'left'`, `idx` being the
index found on the previously read document. -/
def chLeaveUpdate (idx : Nat) (now : Nat) (c : Challenge) : Challenge :=
  { c with
    registeredParticipants := c.registeredParticipants - 1
    participants := setParticipantLeft c.participants idx
    updatedAt := now }

/-- `leaveChallenge(id, userId)` with the clock passed explicitly. -/
def leaveChallenge (db : List Challenge) (id userId : String) (now : Nat) :
    ChLeaveRes × List Challenge :=
  match db.find? (chLeaveFindFilter id userId) with
  | none => (.notJoined, db)
  | some challenge =>
    let idx := challenge.participants.findIdx
      (fun p => p.userId == userId && p.status == "joined")
    if idx = challenge.participants.length then (.notJoined, db)
    else
      let r := mongoUpdateFirst (chLeaveUpdateFilter id userId) (chLeaveUpdate idx now) db
      if r.1.isSome then (.success (findChallenge r.2 id), r.2) else (.notJoined, db)

/-- An `updateChallenge` patch.  The JS code strips `_id`, `id`,
`createdAt`, `createdBy`, `participants` and `registeredParticipants`
by destructuring and passes everything else through; `participants` and
`registeredParticipants` are present here so the model can state that
they are dropped. -/
structure ChallengePatch where
  title : Option String := none
  status : Option String := none
  participants : Option (List Participant) := none
  registeredParticipants : Option Int := none
deriving Repr, DecidableEq

/-- The `$set` document of `updateChallenge` after the destructuring:
everything except the stripped server-owned fields. -/
def applyChallengePatch (patch : ChallengePatch) (now : Nat) (c : Challenge) : Challenge :=
  { c with
    title := patch.title.getD c.title
    status := patch.status.getD c.status
    updatedAt := now }

/-- The compound filter `{ id, createdBy: userId }` used by
`deleteChallenge` (and `updateChallenge`). -/
def chOwnedFilter (id userId : String) (c : Challenge) : Bool :=
  c.id == id && c.createdBy == userId

/-- `updateChallenge(id, updateData, userId)`:
`findOneAndUpdate({ id, createdBy: userId }, { $set }, { new: true })`,
returning the updated document or `null`. -/
def updateChallenge (db : List Challenge) (id : String) (patch : ChallengePatch)
    (userId : String) (now : Nat) : Option Challenge × List Challenge :=
  mongoUpdateFirst (chOwnedFilter id userId) (applyChallengePatch patch now) db

/-- Result of `deleteChallenge`, one constructor per `return` site. -/
inductive ChDeleteRes where
  /-- `{ success: false, error: 'not_found' }` -/
  | notFound
  /-- `{ success: result.modifiedCount > 0, cancelled: true, … }` -/
  | cancelled (success : Bool)
  /-- `{ success: result.deletedCount > 0, cancelled: false, … }` -/
  | deleted (success : Bool)
deriving Repr, DecidableEq

/-- `deleteChallenge(id, userId)` with the clock passed explicitly. -/
def deleteChallenge (db : List Challenge) (id userId : String) (now : Nat) :
    ChDeleteRes × List Challenge :=
  match db.find? (chOwnedFilter id userId) with
  | none => (.notFound, db)
  | some challenge =>
    if challenge.registeredParticipants > 0 then
      let r := mongoUpdateFirst (chOwnedFilter id userId)
        (fun c => { c with status := "cancelled", updatedAt := now }) db
      (.cancelled r.1.isSome, r.2)
    else
      let r := mongoDeleteFirst (chOwnedFilter id userId) db
      (.deleted r.1, r.2)

/-! ### Operations, invariants and participant-list lemmas -/

/-- One event-model operation with its inputs and clock reading. -/
inductive EvOp where
  | create (data : EventData) (userId : String) (now : Nat)
  | join (eventId userId : String) (now : Nat)
  | leave (eventId userId : String) (now : Nat)
  | update (eventId : String) (patch : EventPatch) (userId : String) (now : Nat)
  | delete (eventId userId : String) (now : Nat)

/-- The collection state after one event-model operation. -/
def evStep (db : List Event) : EvOp → List Event
  | .create d u t => (createEvent db d u t).2
  | .join i u t => (joinEvent db i u t).2
  | .leave i u t => (leaveEvent db i u t).2
  | .update i p u t => (updateEvent db i p u t).2
  | .delete i u t => (deleteEvent db i u t).2

/-- The collection state after a sequence of event-model operations. -/
def evRun (db : List Event) : List EvOp → List Event
  | [] => db
  | op :: ops => evRun (evStep db op) ops

/-- One challenge-model operation with its inputs and clock reading. -/
inductive ChOp where
  | create (data : ChallengeData) (userId : String) (now : Nat)
  | join (id userId : String) (now : Nat)
  | leave (id userId : String) (now : Nat)
  | update (id : String) (patch : ChallengePatch) (userId : String) (now : Nat)
  | delete (id userId : String) (now : Nat)

/-- The collection state after one challenge-model operation. -/
def chStep (db : List Challenge) : ChOp → List Challenge
  | .create d u t => (createChallenge db d u t).2
  | .join i u t => (joinChallenge db i u t).2
  | .leave i u t => (leaveChallenge db i u t).2
  | .update i p u t => (updateChallenge db i p u t).2
  | .delete i u t => (deleteChallenge db i u t).2

/-- The collection state after a sequence of challenge-model operations. -/
def chRun (db : List Challenge) : List ChOp → List Challenge
  | [] => db
  | op :: ops => chRun (chStep db op) ops

/-- Number of participation entries whose status is the active/joined
status `'joined'`. -/
def joinedCount (l : List Participant) : Nat :=
  (l.filter (fun p => p.status == "joined")).length

/-- The user ids of a participants array, in order. -/
def userIds (l : List Participant) : List String :=
  l.map Participant.userId

/-- The core count invariant for one event document. -/
def countOkEv (e : Event) : Prop :=
  e.registeredParticipants = (joinedCount e.participants : Int)

/-- At most one participants entry per user (the join filter
`'participants.userId': { $ne: userId }` maintains this). -/
def uniqOkEv (e : Event) : Prop :=
  (userIds e.participants).Nodup

/-- Well-formedness of the events collection: distinct document ids
(unique index) plus the per-document invariants. -/
def EvInv (db : List Event) : Prop :=
  (db.map Event.id).Nodup ∧ ∀ e ∈ db, countOkEv e ∧ uniqOkEv e

/-- The core count invariant for one challenge document. -/
def countOkCh (c : Challenge) : Prop :=
  c.registeredParticipants = (joinedCount c.participants : Int)

/-- At most one participants entry per user, challenge side. -/
def uniqOkCh (c : Challenge) : Prop :=
  (userIds c.participants).Nodup

/-- Well-formedness of the challenges collection. -/
def ChInv (db : List Challenge) : Prop :=
  (db.map Challenge.id).Nodup ∧ ∀ c ∈ db, countOkCh c ∧ uniqOkCh c

theorem joinedCount_append_joined (l : List Participant) (u : String) (t : Nat) :
    joinedCount (l ++ [⟨u, t, "joined"⟩]) = joinedCount l + 1 := by
  simp [joinedCount, List.filter_append]

theorem userIds_append (l : List Participant) (q : Participant) :
    userIds (l ++ [q]) = userIds l ++ [q.userId] := by
  simp [userIds]

theorem joinedCount_cons (p : Participant) (l : List Participant) :
    joinedCount (p :: l) =
      if p.status == "joined" then joinedCount l + 1 else joinedCount l := by
  by_cases h : (p.status == "joined") = true
  · simp [joinedCount, List.filter_cons, h]
  · simp only [Bool.not_eq_true] at h
    simp [joinedCount, List.filter_cons, h]

theorem map_id_of_forall {α : Type} {f : α → α} :
    ∀ {l : List α}, (∀ x ∈ l, f x = x) → l.map f = l := by
  intro l
  induction l with
  | nil => intro _; rfl
  | cons x rest ih =>
    intro h
    rw [List.map_cons, h x (List.mem_cons_self x rest),
      ih (fun y hy => h y (List.mem_cons_of_mem x hy))]

/-- Flipping every `(userId, 'joined')` entry to `'left'` (the
`arrayFilters` update of `leaveEvent`) preserves the user ids and, when
the user ids are duplicate-free and a joined entry of the user exists,
decreases the joined count by exactly one. -/
theorem joinedCount_map_leave (u : String) :
    ∀ (l : List Participant), (userIds l).Nodup →
      l.any (fun p => p.userId == u && p.status == "joined") = true →
      joinedCount (l.map (fun p =>
          if p.userId == u && p.status == "joined" then { p with status := "left" } else p))
        + 1 = joinedCount l := by
  intro l
  induction l with
  | nil => intro _ h; simp at h
  | cons p rest ih =>
    intro hnodup hany
    have hnodup' : (userIds rest).Nodup := (List.nodup_cons.mp hnodup).2
    by_cases hp : (p.userId == u && p.status == "joined") = true
    · have hpu : p.userId = u := by
        have := (Bool.and_eq_true _ _).mp hp
        exact eq_of_beq this.1
      have hps : p.status = "joined" := by
        have := (Bool.and_eq_true _ _).mp hp
        exact eq_of_beq this.2
      have hnotin : p.userId ∉ userIds rest := (List.nodup_cons.mp hnodup).1
      have hrest : rest.map (fun q =>
          if q.userId == u && q.status == "joined" then { q with status := "left" } else q)
          = rest := by
        apply map_id_of_forall
        intro q hq
        have hne : q.userId ≠ u := by
          intro hequ
          exact hnotin (hpu ▸ hequ ▸ List.mem_map_of_mem Participant.userId hq)
        simp [hne]
      simp only [List.map_cons, hp, if_true, hrest]
      rw [joinedCount_cons, joinedCount_cons]
      simp [hps]
    · simp only [Bool.not_eq_true] at hp
      have hany' : rest.any (fun p => p.userId == u && p.status == "joined") = true := by
        rcases List.any_eq_true.mp hany with ⟨q, hq, hqt⟩
        rcases List.mem_cons.mp hq with hq | hq
        · exact absurd (hq ▸ hqt) (by simp [hp])
        · exact List.any_eq_true.mpr ⟨q, hq, hqt⟩
      simp only [List.map_cons, hp, Bool.false_eq_true, if_false]
      rw [joinedCount_cons, joinedCount_cons]
      have hrec := ih hnodup' hany'
      by_cases hs : (p.status == "joined") = true
      · simp only [hs, if_true]
        omega
      · simp only [Bool.not_eq_true] at hs
        simp only [hs, Bool.false_eq_true, if_false]
        exact hrec

theorem userIds_map_leave (u : String) (l : List Participant) :
    userIds (l.map (fun p =>
        if p.userId == u && p.status == "joined" then { p with status := "left" } else p))
      = userIds l := by
  unfold userIds
  rw [List.map_map]
  apply List.map_congr_left
  intro p _
  by_cases hp : (p.userId == u && p.status == "joined") = true
  · simp [Function.comp, hp]
  · simp only [Bool.not_eq_true] at hp
    simp [Function.comp, hp]

/-- Setting the entry found by `findIndex` (as `leaveChallenge` does)
to `'left'`: the index is in range, the user ids are unchanged, and the
joined count decreases by exactly one. -/
theorem setParticipantLeft_spec (u : String) :
    ∀ (l : List Participant),
      l.any (fun p => p.userId == u && p.status == "joined") = true →
      l.findIdx (fun p => p.userId == u && p.status == "joined") < l.length ∧
      joinedCount (setParticipantLeft l
          (l.findIdx (fun p => p.userId == u && p.status == "joined"))) + 1 = joinedCount l ∧
      userIds (setParticipantLeft l
          (l.findIdx (fun p => p.userId == u && p.status == "joined"))) = userIds l := by
  intro l
  induction l with
  | nil => intro h; simp at h
  | cons p rest ih =>
    intro hany
    by_cases hp : (p.userId == u && p.status == "joined") = true
    · have hps : p.status = "joined" := by
        have := (Bool.and_eq_true _ _).mp hp
        exact eq_of_beq this.2
      rw [List.findIdx_cons, hp]
      simp only [cond_true]
      refine ⟨by simp, ?_, ?_⟩
      · simp only [setParticipantLeft]
        rw [joinedCount_cons, joinedCount_cons]
        simp [hps]
      · simp [setParticipantLeft, userIds]
    · simp only [Bool.not_eq_true] at hp
      have hany' : rest.any (fun p => p.userId == u && p.status == "joined") = true := by
        rcases List.any_eq_true.mp hany with ⟨q, hq, hqt⟩
        rcases List.mem_cons.mp hq with hq | hq
        · exact absurd (hq ▸ hqt) (by simp [hp])
        · exact List.any_eq_true.mpr ⟨q, hq, hqt⟩
      obtain ⟨ih1, ih2, ih3⟩ := ih hany'
      rw [List.findIdx_cons, hp]
      simp only [cond_false]
      refine ⟨by simpa using ih1, ?_, ?_⟩
      · simp only [setParticipantLeft]
        rw [joinedCount_cons, joinedCount_cons]
        by_cases hs : (p.status == "joined") = true
        · simp only [hs, if_true]; omega
        · simp only [Bool.not_eq_true] at hs
          simp only [hs, Bool.false_eq_true, if_false]
          exact ih2
      · simp only [setParticipantLeft, userIds, List.map_cons]
        simpa [userIds] using ih3

/-- When a list splits around an element and the mapped keys are
duplicate-free, every other element has a different key. -/
theorem nodup_split_ne {α β : Type} (f : α → β) {pre post : List α} {x : α}
    (h : ((pre ++ x :: post).map f).Nodup) :
    (∀ y ∈ pre, f y ≠ f x) ∧ (∀ y ∈ post, f y ≠ f x) := by
  rw [List.map_append, List.map_cons] at h
  obtain ⟨hpre, hmid, hdisj⟩ := List.nodup_append.mp h
  constructor
  · intro y hy heq
    exact hdisj (List.mem_map_of_mem f hy) (by simp [heq])
  · intro y hy heq
    have := (List.nodup_cons.mp hmid).1
    exact this (heq ▸ List.mem_map_of_mem f hy)

/-! ### Invariant preservation, event side -/

theorem evJoinFilter_parts {i u : String} {cap : Int} {x : Event}
    (h : evJoinFilter i u cap x = true) :
    x.id = i ∧ x.registeredParticipants < cap ∧ x.status = "active" ∧
      ∀ p ∈ x.participants, p.userId ≠ u := by
  unfold evJoinFilter at h
  simp only [Bool.and_eq_true, beq_iff_eq, decide_eq_true_eq, List.all_eq_true,
    bne_iff_ne, ne_eq] at h
  exact ⟨h.1.1.1, h.1.1.2, h.1.2, h.2⟩

theorem evInv_joinUpdate (db : List Event) (i u : String) (cap : Int) (t : Nat)
    (h : EvInv db) :
    EvInv (mongoUpdateFirst (evJoinFilter i u cap) (evJoinUpdate u t) db).2 := by
  obtain ⟨hid, hP⟩ := h
  constructor
  · rw [mongoUpdateFirst_map_eq (evJoinFilter i u cap) (evJoinUpdate u t) Event.id
      (fun x => rfl)]
    exact hid
  · refine mongoUpdateFirst_forall ?_ hP
    intro x hx hfilter
    obtain ⟨hxc, hxu⟩ := hx
    obtain ⟨_, _, _, hfresh⟩ := evJoinFilter_parts hfilter
    constructor
    · unfold countOkEv evJoinUpdate at *
      simp only [joinedCount_append_joined]
      push_cast
      omega
    · unfold uniqOkEv evJoinUpdate at *
      simp only [userIds_append]
      rw [List.nodup_append]
      refine ⟨hxu, List.nodup_singleton _, ?_⟩
      intro a ha
      simp only [List.mem_singleton]
      intro haeq
      rcases List.mem_map.mp ha with ⟨p, hp, hpa⟩
      exact hfresh p hp (by rw [hpa, haeq])

theorem evLeaveFilter_parts {i u : String} {x : Event}
    (h : evLeaveFilter i u x = true) :
    x.id = i ∧ x.participants.any (fun p => p.userId == u && p.status == "joined") = true := by
  unfold evLeaveFilter at h
  simp only [Bool.and_eq_true, beq_iff_eq] at h
  refine ⟨h.1, ?_⟩
  rw [List.any_eq_true]
  rcases List.any_eq_true.mp h.2 with ⟨p, hp, hpt⟩
  exact ⟨p, hp, hpt⟩

theorem evInv_leaveUpdate (db : List Event) (i u : String) (t : Nat) (h : EvInv db) :
    EvInv (mongoUpdateFirst (evLeaveFilter i u) (evLeaveUpdate u t) db).2 := by
  obtain ⟨hid, hP⟩ := h
  constructor
  · rw [mongoUpdateFirst_map_eq (evLeaveFilter i u) (evLeaveUpdate u t) Event.id
      (fun x => rfl)]
    exact hid
  · refine mongoUpdateFirst_forall ?_ hP
    intro x hx hfilter
    obtain ⟨hxc, hxu⟩ := hx
    obtain ⟨_, hany⟩ := evLeaveFilter_parts hfilter
    have hdec := joinedCount_map_leave u x.participants hxu hany
    constructor
    · unfold countOkEv evLeaveUpdate at *
      push_cast
      omega
    · unfold uniqOkEv evLeaveUpdate at *
      rw [userIds_map_leave]
      exact hxu

theorem evInv_preservingUpdate (db : List Event) (p : Event → Bool) (u : Event → Event)
    (hid : ∀ x, (u x).id = x.id) (hpart : ∀ x, (u x).participants = x.participants)
    (hcount : ∀ x, (u x).registeredParticipants = x.registeredParticipants)
    (h : EvInv db) : EvInv (mongoUpdateFirst p u db).2 := by
  obtain ⟨hids, hP⟩ := h
  constructor
  · rw [mongoUpdateFirst_map_eq p u Event.id hid]
    exact hids
  · refine mongoUpdateFirst_forall ?_ hP
    intro x hx _
    obtain ⟨hxc, hxu⟩ := hx
    constructor
    · unfold countOkEv at *
      rw [hcount, hpart]
      exact hxc
    · unfold uniqOkEv at *
      rw [hpart]
      exact hxu

theorem evInv_delete_list (db : List Event) (p : Event → Bool) (h : EvInv db) :
    EvInv (mongoDeleteFirst p db).2 := by
  obtain ⟨hids, hP⟩ := h
  have hsub := mongoDeleteFirst_sublist p db
  exact ⟨(hsub.map Event.id).nodup hids, fun e he => hP e (hsub.subset he)⟩

theorem evInv_insert (db : List Event) (e : Event)
    (hcnt : e.registeredParticipants = 0) (hparts : e.participants = [])
    (h : EvInv db) :
    EvInv (if db.any (fun x => x.id == e.id) then db else db ++ [e]) := by
  obtain ⟨hids, hP⟩ := h
  by_cases hdup : db.any (fun x => x.id == e.id) = true
  · simp only [hdup, if_true]
    exact ⟨hids, hP⟩
  · simp only [Bool.not_eq_true] at hdup
    simp only [hdup, Bool.false_eq_true, if_false]
    constructor
    · rw [List.map_append, List.map_singleton, List.nodup_append]
      refine ⟨hids, List.nodup_singleton _, ?_⟩
      intro a ha
      simp only [List.mem_singleton]
      intro haeq
      rcases List.mem_map.mp ha with ⟨x, hx, hxa⟩
      have := List.any_eq_false.mp hdup x hx
      simp only [beq_iff_eq] at this
      exact this (by rw [← haeq, hxa])
    · intro x hx
      rcases List.mem_append.mp hx with hx | hx
      · exact hP x hx
      · rcases List.mem_singleton.mp hx with rfl
        refine ⟨?_, ?_⟩
        · unfold countOkEv
          rw [hcnt, hparts]
          rfl
        · unfold uniqOkEv
          rw [hparts]
          exact List.nodup_nil

theorem evInv_step (db : List Event) (op : EvOp) (h : EvInv db) : EvInv (evStep db op) := by
  cases op with
  | create d u t =>
    show EvInv (createEvent db d u t).2
    unfold createEvent
    by_cases hdup : db.any (fun x => x.id == generateEventId d.title t) = true
    · simpa [hdup] using h
    · simp only [Bool.not_eq_true] at hdup
      have := evInv_insert db
        { id := generateEventId d.title t, title := d.title, description := d.description,
          date := d.date, capacity := d.capacity, registeredParticipants := 0,
          createdBy := u, status := "active", participants := [], updatedAt := t }
        rfl rfl h
      simpa [hdup] using this
  | join i u t =>
    show EvInv (joinEvent db i u t).2
    unfold joinEvent
    rcases hfind : findEvent db i with _ | event
    · exact h
    · simp only []
      split
      · exact h
      · split
        · exact h
        · split
          · exact h
          · split
            · exact h
            · split
              · exact evInv_joinUpdate db i u event.capacity t h
              · exact h
  | leave i u t =>
    show EvInv (leaveEvent db i u t).2
    unfold leaveEvent
    rcases hfind : findEvent db i with _ | event
    · exact h
    · simp only []
      split
      · split
        · exact evInv_leaveUpdate db i u t h
        · exact h
      · exact h
  | update i p u t =>
    show EvInv (updateEvent db i p u t).2
    unfold updateEvent
    rcases hfind : findEvent db i with _ | event
    · exact h
    · simp only []
      split
      · exact h
      · split
        · exact h
        · split
          · exact h
          · exact evInv_preservingUpdate db _ _ (fun x => rfl) (fun x => rfl) (fun x => rfl) h
  | delete i u t =>
    show EvInv (deleteEvent db i u t).2
    unfold deleteEvent
    rcases hfind : findEvent db i with _ | event
    · exact h
    · simp only []
      split
      · exact h
      · split
        · exact evInv_preservingUpdate db _ _ (fun x => rfl) (fun x => rfl) (fun x => rfl) h
        · exact evInv_delete_list db _ h

theorem evInv_run (ops : List EvOp) : ∀ (db : List Event), EvInv db → EvInv (evRun db ops) := by
  induction ops with
  | nil => intro db h; exact h
  | cons op rest ih => intro db h; exact ih (evStep db op) (evInv_step db op h)

/-! ### Invariant preservation, challenge side -/

theorem chJoinFilter_parts {i u : String} {x : Challenge}
    (h : chJoinFilter i u x = true) :
    x.id = i ∧ x.status = "active" ∧ (∀ p ∈ x.participants, p.userId ≠ u) ∧
      x.createdBy ≠ u := by
  unfold chJoinFilter at h
  simp only [Bool.and_eq_true, beq_iff_eq, List.all_eq_true, bne_iff_ne, ne_eq] at h
  exact ⟨h.1.1.1, h.1.1.2, h.1.2, h.2⟩

theorem chInv_joinUpdate (db : List Challenge) (i u : String) (t : Nat) (h : ChInv db) :
    ChInv (mongoUpdateFirst (chJoinFilter i u) (chJoinUpdate u t) db).2 := by
  obtain ⟨hid, hP⟩ := h
  constructor
  · rw [mongoUpdateFirst_map_eq (chJoinFilter i u) (chJoinUpdate u t) Challenge.id
      (fun x => rfl)]
    exact hid
  · refine mongoUpdateFirst_forall ?_ hP
    intro x hx hfilter
    obtain ⟨hxc, hxu⟩ := hx
    obtain ⟨_, _, hfresh, _⟩ := chJoinFilter_parts hfilter
    constructor
    · unfold countOkCh chJoinUpdate at *
      simp only [joinedCount_append_joined]
      push_cast
      omega
    · unfold uniqOkCh chJoinUpdate at *
      simp only [userIds_append]
      rw [List.nodup_append]
      refine ⟨hxu, List.nodup_singleton _, ?_⟩
      intro a ha
      simp only [List.mem_singleton]
      intro haeq
      rcases List.mem_map.mp ha with ⟨p, hp, hpa⟩
      exact hfresh p hp (by rw [hpa, haeq])

theorem chInv_preservingUpdate (db : List Challenge) (p : Challenge → Bool)
    (u : Challenge → Challenge)
    (hid : ∀ x, (u x).id = x.id) (hpart : ∀ x, (u x).participants = x.participants)
    (hcount : ∀ x, (u x).registeredParticipants = x.registeredParticipants)
    (h : ChInv db) : ChInv (mongoUpdateFirst p u db).2 := by
  obtain ⟨hids, hP⟩ := h
  constructor
  · rw [mongoUpdateFirst_map_eq p u Challenge.id hid]
    exact hids
  · refine mongoUpdateFirst_forall ?_ hP
    intro x hx _
    obtain ⟨hxc, hxu⟩ := hx
    constructor
    · unfold countOkCh at *
      rw [hcount, hpart]
      exact hxc
    · unfold uniqOkCh at *
      rw [hpart]
      exact hxu

theorem chInv_delete_list (db : List Challenge) (p : Challenge → Bool) (h : ChInv db) :
    ChInv (mongoDeleteFirst p db).2 := by
  obtain ⟨hids, hP⟩ := h
  have hsub := mongoDeleteFirst_sublist p db
  exact ⟨(hsub.map Challenge.id).nodup hids, fun c hc => hP c (hsub.subset hc)⟩

theorem chInv_insert (db : List Challenge) (c : Challenge)
    (hcnt : c.registeredParticipants = 0) (hparts : c.participants = [])
    (h : ChInv db) :
    ChInv (if db.any (fun x => x.id == c.id) then db else db ++ [c]) := by
  obtain ⟨hids, hP⟩ := h
  by_cases hdup : db.any (fun x => x.id == c.id) = true
  · simp only [hdup, if_true]
    exact ⟨hids, hP⟩
  · simp only [Bool.not_eq_true] at hdup
    simp only [hdup, Bool.false_eq_true, if_false]
    constructor
    · rw [List.map_append, List.map_singleton, List.nodup_append]
      refine ⟨hids, List.nodup_singleton _, ?_⟩
      intro a ha
      simp only [List.mem_singleton]
      intro haeq
      rcases List.mem_map.mp ha with ⟨x, hx, hxa⟩
      have := List.any_eq_false.mp hdup x hx
      simp only [beq_iff_eq] at this
      exact this (by rw [← haeq, hxa])
    · intro x hx
      rcases List.mem_append.mp hx with hx | hx
      · exact hP x hx
      · rcases List.mem_singleton.mp hx with rfl
        refine ⟨?_, ?_⟩
        · unfold countOkCh
          rw [hcnt, hparts]
          rfl
        · unfold uniqOkCh
          rw [hparts]
          exact List.nodup_nil

theorem chLeaveFindFilter_parts {i u : String} {x : Challenge}
    (h : chLeaveFindFilter i u x = true) :
    x.id = i ∧ x.participants.any (fun p => p.userId == u && p.status == "joined") = true := by
  unfold chLeaveFindFilter at h
  simp only [Bool.and_eq_true, beq_iff_eq] at h
  refine ⟨h.1, ?_⟩
  rw [List.any_eq_true]
  rcases List.any_eq_true.mp h.2 with ⟨p, hp, hpt⟩
  exact ⟨p, hp, hpt⟩

/-- The `leaveChallenge` update targets exactly the document found by
the initial read (ids are unique), so the positional index computed
there is applied to the right document. -/
theorem chInv_leave (db : List Challenge) (i u : String) (t : Nat) (h : ChInv db) :
    ChInv (leaveChallenge db i u t).2 := by
  unfold leaveChallenge
  rcases hfind : db.find? (chLeaveFindFilter i u) with _ | c
  · exact h
  · simp only []
    split
    · exact h
    · obtain ⟨pre, post, hdb, hpre, hc⟩ := find?_split hfind
      obtain ⟨hcid, hcany⟩ := chLeaveFindFilter_parts hc
      obtain ⟨hids, hP⟩ := h
      have hne := nodup_split_ne Challenge.id (hdb ▸ hids)
      have hprefalse : ∀ x ∈ pre, chLeaveUpdateFilter i u x = false := by
        intro x hx
        unfold chLeaveUpdateFilter
        have : x.id ≠ i := fun hxi => hne.1 x hx (hxi.trans hcid.symm)
        simp [this]
      have hcfilter : chLeaveUpdateFilter i u c = true := by
        unfold chLeaveUpdateFilter
        rcases List.any_eq_true.mp hcany with ⟨p, hp, hpt⟩
        have hpu : p.userId = u := eq_of_beq ((Bool.and_eq_true _ _).mp hpt).1
        simp only [hcid, beq_self_eq_true, Bool.true_and]
        exact List.any_eq_true.mpr ⟨p, hp, by simp [hpu]⟩
      set idx := c.participants.findIdx (fun p => p.userId == u && p.status == "joined")
        with hidxdef
      have hupd := mongoUpdateFirst_append hprefalse c post
        (p := chLeaveUpdateFilter i u) (u := chLeaveUpdate idx t)
      simp only [hcfilter, eq_self_iff_true, if_true] at hupd
      rw [hdb, hupd]
      simp only [Option.isSome_some, if_true]
      obtain ⟨hidx, hcount, hussr⟩ := setParticipantLeft_spec u c.participants hcany
      obtain ⟨hcOk, hcUniq⟩ :=
        hP c (hdb ▸ (List.mem_append.mpr (Or.inr (List.mem_cons_self c post))))
      constructor
      · have hmapeq : (pre ++ chLeaveUpdate idx t c :: post).map Challenge.id
            = (pre ++ c :: post).map Challenge.id := by
          simp [chLeaveUpdate]
        rw [hmapeq, ← hdb]
        exact hids
      · intro x hx
        rcases List.mem_append.mp hx with hx | hx
        · exact hP x (hdb ▸ List.mem_append.mpr (Or.inl hx))
        · rcases List.mem_cons.mp hx with rfl | hx
          · constructor
            · unfold countOkCh chLeaveUpdate at *
              simp only []
              rw [← hidxdef] at hcount
              omega
            · unfold uniqOkCh chLeaveUpdate at *
              simp only []
              rw [← hidxdef] at hussr
              rw [hussr]
              exact hcUniq
          · exact hP x (hdb ▸ List.mem_append.mpr (Or.inr (List.mem_cons_of_mem c hx)))

theorem chInv_step (db : List Challenge) (op : ChOp) (h : ChInv db) : ChInv (chStep db op) := by
  cases op with
  | create d u t =>
    show ChInv (createChallenge db d u t).2
    unfold createChallenge
    by_cases hdup : db.any (fun x =>
        x.id == generateChallengeId d.title (t / 1000)) = true
    · simpa [hdup] using h
    · simp only [Bool.not_eq_true] at hdup
      have := chInv_insert db
        { id := generateChallengeId d.title (t / 1000), title := d.title,
          registeredParticipants := 0, createdBy := u, status := "active",
          participants := [], updatedAt := t }
        rfl rfl h
      simpa [hdup] using this
  | join i u t =>
    show ChInv (joinChallenge db i u t).2
    unfold joinChallenge
    simp only []
    split
    · exact chInv_joinUpdate db i u t h
    · exact h
  | leave i u t => exact chInv_leave db i u t h
  | update i p u t =>
    show ChInv (updateChallenge db i p u t).2
    unfold updateChallenge
    exact chInv_preservingUpdate db _ _ (fun x => rfl) (fun x => rfl) (fun x => rfl) h
  | delete i u t =>
    show ChInv (deleteChallenge db i u t).2
    unfold deleteChallenge
    rcases hfind : db.find? (chOwnedFilter i u) with _ | c
    · exact h
    · simp only []
      split
      · exact chInv_preservingUpdate db _ _ (fun x => rfl) (fun x => rfl) (fun x => rfl) h
      · exact chInv_delete_list db _ h

theorem chInv_run (ops : List ChOp) :
    ∀ (db : List Challenge), ChInv db → ChInv (chRun db ops) := by
  induction ops with
  | nil => intro db h; exact h
  | cons op rest ih => intro db h; exact ih (chStep db op) (chInv_step db op h)

/-! ### Claims -/

/-- C1: for every resource (challenge or event), after any sequence of
create/join/leave/update/delete operations starting from an empty
collection, the denormalized counter `registeredParticipants` equals
the number of `participants` entries whose status is the active/joined
status `'joined'`; every operation preserves this equality. -/
theorem claim_C1_count_invariant :
    ∀ (ops : List EvOp) (cops : List ChOp),
      (∀ e ∈ evRun [] ops, e.registeredParticipants = (joinedCount e.participants : Int)) ∧
      (∀ c ∈ chRun [] cops, c.registeredParticipants = (joinedCount c.participants : Int)) := by
  intro ops cops
  have h1 := evInv_run ops [] ⟨List.nodup_nil, by simp⟩
  have h2 := chInv_run cops [] ⟨List.nodup_nil, by simp⟩
  exact ⟨fun e he => (h1.2 e he).1, fun c hc => (h2.2 c hc).1⟩

/-- C5 (code bug): a precondition failure of `joinChallenge` is not
returned as a typed outcome.  On the concrete failing input of a
challenge id that does not exist, the conditional update matches
nothing, and the diagnostic re-read `collection.findOne({ id })`
references the undefined identifier `collection`, so the operation
throws a `ReferenceError` instead of returning the typed `not_found`
result the code below that line intends. -/
theorem claim_C5_joinChallenge_throws :
    joinChallenge [] "summer-cleanup-100" "u1" 5 =
      (Except.error (JsError.referenceError "collection is not defined"), []) := rfl

/-- C10: joining an event whose date lies in the past fails with the
past-event error even when the event is active, has spare capacity,
and the caller is a non-creator who has never joined — a join
precondition checked between the `status` and `alreadyJoined` checks. -/
theorem claim_C10_past_event_guard (db : List Event) (eventId userId : String) (now : Nat)
    (e : Event) (hfind : findEvent db eventId = some e)
    (hcreator : e.createdBy ≠ userId) (hactive : e.status = "active")
    (hpast : e.date < now)
    (_hroom : e.registeredParticipants < e.capacity)
    (_hfresh : ∀ p ∈ e.participants, p.userId ≠ userId) :
    joinEvent db eventId userId now = (.pastEvent, db) := by
  unfold joinEvent
  rw [hfind]
  have h1 : (e.createdBy == userId) = false := by
    simp [hcreator]
  have h2 : (e.status != "active") = false := by
    simp [hactive]
  simp only [h1, Bool.false_eq_true, if_false, h2, if_pos hpast]

/-- A concrete active event whose date (3) lies in the past. -/
def pastEvent : Event :=
  { id := "beach-day-9"
    title := "Beach Day"
    description := "d"
    date := 3
    capacity := 10
    registeredParticipants := 0
    createdBy := "creator"
    status := "active"
    participants := []
    updatedAt := 0 }

/-- Witness for C10 at a concrete past event. -/
theorem claim_C10_witness :
    findEvent [pastEvent] "beach-day-9" = some pastEvent ∧
    joinEvent [pastEvent] "beach-day-9" "u2" 7 = (.pastEvent, [pastEvent]) := by
  refine ⟨by decide, ?_⟩
  exact claim_C10_past_event_guard [pastEvent] "beach-day-9" "u2" 7 pastEvent (by decide)
    (by decide) (by decide) (by decide) (by decide) (by decide)

/-- C8: an `updateEvent` patch that sets `capacity` below the current
`registeredParticipants` fails with the invalid-capacity error and
leaves the stored collection — hence every field of the document —
unmodified. -/
theorem claim_C8_capacity_guard (db : List Event) (eventId : String) (patch : EventPatch)
    (userId : String) (now : Nat) (e : Event) (k : Int)
    (hfind : findEvent db eventId = some e) (hown : e.createdBy = userId)
    (hk : patch.capacity = some k) (hlow : k < e.registeredParticipants) :
    updateEvent db eventId patch userId now = (.invalidCapacity, db) := by
  unfold updateEvent
  rw [hfind]
  have h1 : (e.createdBy != userId) = false := by
    simp [hown]
  have h2 : patch.capacity.any (fun kk => kk < e.registeredParticipants) = true := by
    rw [hk]
    simpa using hlow
  simp only [h1, Bool.false_eq_true, if_false, h2, if_true]

/-- A concrete active event with two joined participants. -/
def busyEvent : Event :=
  { id := "tree-walk-3"
    title := "Tree Walk"
    description := "d"
    date := 90
    capacity := 5
    registeredParticipants := 2
    createdBy := "creator"
    status := "active"
    participants := [⟨"u1", 1, "joined"⟩, ⟨"u2", 2, "joined"⟩]
    updatedAt := 2 }

/-- Witness for C8 at a concrete event with two joined participants. -/
theorem claim_C8_witness :
    updateEvent [busyEvent] "tree-walk-3" { capacity := some 1 } "creator" 50 =
      (.invalidCapacity, [busyEvent]) := by
  exact claim_C8_capacity_guard [busyEvent] "tree-walk-3" { capacity := some 1 }
    "creator" 50 busyEvent 1 (by decide) (by decide) rfl (by decide)

theorem find?_append_of_false {α : Type} {p : α → Bool} {pre : List α}
    (hpre : ∀ x ∈ pre, p x = false) (l : List α) :
    (pre ++ l).find? p = l.find? p := by
  induction pre with
  | nil => rfl
  | cons x rest ih =>
    have hx := hpre x (List.mem_cons_self x rest)
    have ih := ih (fun y hy => hpre y (List.mem_cons_of_mem x hy))
    rw [List.cons_append, List.find?_cons_of_neg _ (by simp [hx])]
    exact ih

/-- Soft-delete branch of `deleteEvent`: with active participants the
document is cancelled in place. -/
theorem evDelete_soft (db : List Event) (i u : String) (t : Nat) (e : Event)
    (hfind : findEvent db i = some e) (hown : e.createdBy = u)
    (hpos : e.registeredParticipants > 0) :
    (deleteEvent db i u t).1 = .cancelled ∧
    findEvent (deleteEvent db i u t).2 i =
      some { e with status := "cancelled", updatedAt := t } := by
  obtain ⟨pre, post, hdb, hpre, he⟩ := find?_split hfind
  unfold deleteEvent
  rw [hfind]
  have h1 : (e.createdBy != u) = false := by simp [hown]
  simp only [h1, Bool.false_eq_true, if_false, if_pos hpos]
  have hupd := mongoUpdateFirst_append hpre e post
    (u := fun x => { x with status := "cancelled", updatedAt := t })
  simp only [he, eq_self_iff_true, if_true] at hupd
  rw [hdb]
  simp only [hupd]
  refine ⟨by trivial, ?_⟩
  unfold findEvent
  rw [find?_append_of_false hpre]
  rw [List.find?_cons_of_pos _ (by simpa using he)]

/-- Hard-delete branch of `deleteEvent`: with zero participants the
document is removed. -/
theorem evDelete_hard (db : List Event) (i u : String) (t : Nat) (e : Event)
    (hnodup : (db.map Event.id).Nodup)
    (hfind : findEvent db i = some e) (hown : e.createdBy = u)
    (hzero : e.registeredParticipants = 0) :
    (deleteEvent db i u t).1 = .deleted ∧
    findEvent (deleteEvent db i u t).2 i = none := by
  obtain ⟨pre, post, hdb, hpre, he⟩ := find?_split hfind
  have hne := nodup_split_ne Event.id (hdb ▸ hnodup)
  unfold deleteEvent
  rw [hfind]
  have h1 : (e.createdBy != u) = false := by simp [hown]
  have h2 : ¬ e.registeredParticipants > 0 := by omega
  simp only [h1, Bool.false_eq_true, if_false, if_neg h2]
  have hdel := mongoDeleteFirst_append hpre e post he
  rw [hdb]
  simp only [hdel]
  refine ⟨by trivial, ?_⟩
  unfold findEvent
  apply find?_eq_none_of_all_false
  intro x hx
  rcases List.mem_append.mp hx with hx | hx
  · exact hpre x hx
  · have hxne : x.id ≠ e.id := hne.2 x hx
    have hei : e.id = i := by simpa using he
    simp [hei ▸ hxne]

/-- Soft-delete branch of `deleteChallenge`. -/
theorem chDelete_soft (db : List Challenge) (i u : String) (t : Nat) (c : Challenge)
    (hnodup : (db.map Challenge.id).Nodup)
    (hfind : db.find? (chOwnedFilter i u) = some c)
    (hpos : c.registeredParticipants > 0) :
    (deleteChallenge db i u t).1 = .cancelled true ∧
    findChallenge (deleteChallenge db i u t).2 i =
      some { c with status := "cancelled", updatedAt := t } := by
  obtain ⟨pre, post, hdb, hpre, hc⟩ := find?_split hfind
  have hne := nodup_split_ne Challenge.id (hdb ▸ hnodup)
  have hcid : c.id = i := by
    have := (Bool.and_eq_true _ _).mp hc
    simpa using this.1
  unfold deleteChallenge
  rw [hfind]
  simp only [if_pos hpos]
  have hupd := mongoUpdateFirst_append hpre c post
    (u := fun x => { x with status := "cancelled", updatedAt := t })
  simp only [hc, eq_self_iff_true, if_true] at hupd
  rw [hdb]
  simp only [hupd, Option.isSome_some]
  refine ⟨by trivial, ?_⟩
  unfold findChallenge
  have hprefalse : ∀ x ∈ pre, (x.id == i) = false := by
    intro x hx
    have hxne : x.id ≠ c.id := hne.1 x hx
    simp [hcid ▸ hxne]
  rw [find?_append_of_false hprefalse]
  rw [List.find?_cons_of_pos _ (by simpa using hcid)]

/-- Hard-delete branch of `deleteChallenge`. -/
theorem chDelete_hard (db : List Challenge) (i u : String) (t : Nat) (c : Challenge)
    (hnodup : (db.map Challenge.id).Nodup)
    (hfind : db.find? (chOwnedFilter i u) = some c)
    (hzero : c.registeredParticipants = 0) :
    (deleteChallenge db i u t).1 = .deleted true ∧
    findChallenge (deleteChallenge db i u t).2 i = none := by
  obtain ⟨pre, post, hdb, hpre, hc⟩ := find?_split hfind
  have hne := nodup_split_ne Challenge.id (hdb ▸ hnodup)
  have hcid : c.id = i := by
    have := (Bool.and_eq_true _ _).mp hc
    simpa using this.1
  unfold deleteChallenge
  rw [hfind]
  have h2 : ¬ c.registeredParticipants > 0 := by omega
  simp only [if_neg h2]
  have hdel := mongoDeleteFirst_append hpre c post hc
  rw [hdb]
  simp only [hdel]
  refine ⟨by trivial, ?_⟩
  unfold findChallenge
  apply find?_eq_none_of_all_false
  intro x hx
  rcases List.mem_append.mp hx with hx | hx
  · have hxne : x.id ≠ c.id := hne.1 x hx
    simp [hcid ▸ hxne]
  · have hxne : x.id ≠ c.id := hne.2 x hx
    simp [hcid ▸ hxne]

/-- C9: a delete request by the creator cancels the resource in place
(result kind `cancelled`; the document remains, with status
`'cancelled'`) when the participant count is positive, and removes the
document entirely (result kind `deleted`, reported with
`cancelled: false` on the challenge side) when the count is zero — for
both events and challenges. -/
theorem claim_C9_soft_delete_branching
    (db : List Event) (i u : String) (t : Nat) (e : Event)
    (hnodup : (db.map Event.id).Nodup)
    (hfind : findEvent db i = some e) (hown : e.createdBy = u)
    (cdb : List Challenge) (ci cu : String) (ct : Nat) (c : Challenge)
    (hcnodup : (cdb.map Challenge.id).Nodup)
    (hcfind : cdb.find? (chOwnedFilter ci cu) = some c) :
    (e.registeredParticipants > 0 →
      (deleteEvent db i u t).1 = .cancelled ∧
      findEvent (deleteEvent db i u t).2 i =
        some { e with status := "cancelled", updatedAt := t }) ∧
    (e.registeredParticipants = 0 →
      (deleteEvent db i u t).1 = .deleted ∧
      findEvent (deleteEvent db i u t).2 i = none) ∧
    (c.registeredParticipants > 0 →
      (deleteChallenge cdb ci cu ct).1 = .cancelled true ∧
      findChallenge (deleteChallenge cdb ci cu ct).2 ci =
        some { c with status := "cancelled", updatedAt := ct }) ∧
    (c.registeredParticipants = 0 →
      (deleteChallenge cdb ci cu ct).1 = .deleted true ∧
      findChallenge (deleteChallenge cdb ci cu ct).2 ci = none) := by
  exact ⟨fun hpos => evDelete_soft db i u t e hfind hown hpos,
    fun hzero => evDelete_hard db i u t e hnodup hfind hown hzero,
    fun hpos => chDelete_soft cdb ci cu ct c hcnodup hcfind hpos,
    fun hzero => chDelete_hard cdb ci cu ct c hcnodup hcfind hzero⟩

/-- A concrete challenge with one joined participant, cancelled on delete. -/
def busyChallenge : Challenge :=
  { id := "plastic-free-7"
    title := "Plastic Free"
    registeredParticipants := 1
    createdBy := "creator"
    status := "active"
    participants := [⟨"u1", 1, "joined"⟩]
    updatedAt := 1 }

/-- Witness for C9: the busy event is cancelled in place and the busy
challenge likewise. -/
theorem claim_C9_witness :
    ((2 : Int) > 0 →
      (deleteEvent [busyEvent] "tree-walk-3" "creator" 60).1 = .cancelled ∧
      findEvent (deleteEvent [busyEvent] "tree-walk-3" "creator" 60).2 "tree-walk-3" =
        some { busyEvent with status := "cancelled", updatedAt := 60 }) ∧
    ((2 : Int) = 0 →
      (deleteEvent [busyEvent] "tree-walk-3" "creator" 60).1 = .deleted ∧
      findEvent (deleteEvent [busyEvent] "tree-walk-3" "creator" 60).2 "tree-walk-3" = none) ∧
    ((1 : Int) > 0 →
      (deleteChallenge [busyChallenge] "plastic-free-7" "creator" 60).1 = .cancelled true ∧
      findChallenge (deleteChallenge [busyChallenge] "plastic-free-7" "creator" 60).2
          "plastic-free-7" =
        some { busyChallenge with status := "cancelled", updatedAt := 60 }) ∧
    ((1 : Int) = 0 →
      (deleteChallenge [busyChallenge] "plastic-free-7" "creator" 60).1 = .deleted true ∧
      findChallenge (deleteChallenge [busyChallenge] "plastic-free-7" "creator" 60).2
          "plastic-free-7" = none) := by
  exact claim_C9_soft_delete_branching [busyEvent] "tree-walk-3" "creator" 60 busyEvent
    (by decide) (by decide) (by decide)
    [busyChallenge] "plastic-free-7" "creator" 60 busyChallenge
    (by decide) (by decide)

theorem mongoUpdateFirst_mem {α : Type} (p : α → Bool) (u : α → α) :
    ∀ (db : List α), ∀ y ∈ (mongoUpdateFirst p u db).2, y ∈ db ∨ ∃ x, x ∈ db ∧ y = u x := by
  intro db
  induction db with
  | nil => intro y hy; simp [mongoUpdateFirst] at hy
  | cons x rest ih =>
    intro y hy
    by_cases hx : p x = true
    · simp only [mongoUpdateFirst, hx, if_true] at hy
      rcases List.mem_cons.mp hy with hy | hy
      · exact Or.inr ⟨x, List.mem_cons_self x rest, hy⟩
      · exact Or.inl (List.mem_cons_of_mem x hy)
    · simp only [Bool.not_eq_true] at hx
      simp only [mongoUpdateFirst, hx, Bool.false_eq_true, if_false] at hy
      rcases List.mem_cons.mp hy with hy | hy
      · exact Or.inl (hy ▸ List.mem_cons_self x rest)
      · rcases ih y hy with h | ⟨z, hz, hyz⟩
        · exact Or.inl (List.mem_cons_of_mem x h)
        · exact Or.inr ⟨z, List.mem_cons_of_mem x hz, hyz⟩

/-- A concrete cancelled event with one joined participant. -/
def cancelledEvent : Event :=
  { id := "river-run-2"
    title := "River Run"
    description := "d"
    date := 500
    capacity := 10
    registeredParticipants := 1
    createdBy := "creator"
    status := "cancelled"
    participants := [⟨"u1", 1, "joined"⟩]
    updatedAt := 3 }

/-- C7 counterexample: `updateEvent` is not transition-guarded — the
creator's patch `{ status: 'active' }` moves a cancelled event back to
`active`, refuting "once a resource is non-active, no operation
(including update) returns it to active". -/
theorem claim_C7_counterexample :
    cancelledEvent.status = "cancelled" ∧
    (updateEvent [cancelledEvent] "river-run-2" { status := some "active" } "creator" 9).2 =
      [{ cancelledEvent with status := "active", updatedAt := 9 }] ∧
    ({ cancelledEvent with status := "active", updatedAt := 9 } : Event).status = "active" := by
  exact ⟨rfl, by decide, rfl⟩

/-- C7 (amended): join and leave never change any document's status;
delete leaves every surviving document either as it was or with status
`'cancelled'`; a join against a non-active resource fails with the
not-active error and changes nothing; a participant with a joined
entry can leave regardless of status; but `update` is not
transition-guarded — the creator's patch sets `status` to any supplied
value (shown for `updateChallenge`; the counterexample shows the same
for events). -/
theorem claim_C7_status_transitions :
    (∀ (db : List Event) (i u : String) (t : Nat),
        ((joinEvent db i u t).2).map Event.status = db.map Event.status) ∧
    (∀ (db : List Event) (i u : String) (t : Nat),
        ((leaveEvent db i u t).2).map Event.status = db.map Event.status) ∧
    (∀ (db : List Event) (i u : String) (t : Nat) (x : Event),
        x ∈ (deleteEvent db i u t).2 → x.status = "cancelled" ∨ x ∈ db) ∧
    (∀ (db : List Event) (i u : String) (t : Nat) (e : Event),
        findEvent db i = some e → e.createdBy ≠ u → e.status ≠ "active" →
        joinEvent db i u t = (.notActive, db)) ∧
    (∀ (db : List Event) (i u : String) (t : Nat) (e : Event),
        findEvent db i = some e →
        e.participants.any (fun p => p.userId == u && p.status == "joined") = true →
        ∃ x, (leaveEvent db i u t).1 = .success x) ∧
    (∀ (db : List Challenge) (i u : String) (t : Nat) (patch : ChallengePatch) (s : String)
        (c : Challenge), db.find? (chOwnedFilter i u) = some c → patch.status = some s →
        (updateChallenge db i patch u t).1 = some (applyChallengePatch patch t c) ∧
        (applyChallengePatch patch t c).status = s) := by
  refine ⟨?_, ?_, ?_, ?_, ?_, ?_⟩
  · intro db i u t
    unfold joinEvent
    rcases hfind : findEvent db i with _ | event
    · rfl
    · simp only []
      split
      · rfl
      · split
        · rfl
        · split
          · rfl
          · split
            · rfl
            · split
              · exact mongoUpdateFirst_map_eq (evJoinFilter i u event.capacity)
                  (evJoinUpdate u t) Event.status (fun x => rfl) db
              · rfl
  · intro db i u t
    unfold leaveEvent
    rcases hfind : findEvent db i with _ | event
    · rfl
    · simp only []
      split
      · split
        · exact mongoUpdateFirst_map_eq (evLeaveFilter i u) (evLeaveUpdate u t)
            Event.status (fun x => rfl) db
        · rfl
      · rfl
  · intro db i u t x hx
    revert hx
    unfold deleteEvent
    rcases hfind : findEvent db i with _ | event
    · exact fun hx => Or.inr hx
    · simp only []
      split
      · exact fun hx => Or.inr hx
      · split
        · intro hx
          rcases mongoUpdateFirst_mem _ _ db x hx with h | ⟨z, _, hz⟩
          · exact Or.inr h
          · exact Or.inl (hz ▸ rfl)
        · intro hx
          exact Or.inr ((mongoDeleteFirst_sublist _ db).subset hx)
  · intro db i u t e hfind hcreator hstatus
    unfold joinEvent
    rw [hfind]
    have h1 : (e.createdBy == u) = false := by simp [hcreator]
    have h2 : (e.status != "active") = true := by simpa using hstatus
    simp only [h1, Bool.false_eq_true, if_false, h2, if_true]
  · intro db i u t e hfind hjoined
    obtain ⟨pre, post, hdb, hpre, he⟩ := find?_split hfind
    unfold leaveEvent
    rw [hfind]
    simp only [hjoined, if_true]
    have hprefalse : ∀ x ∈ pre, evLeaveFilter i u x = false := by
      intro x hx
      unfold evLeaveFilter
      rw [hpre x hx, Bool.false_and]
    have hefilter : evLeaveFilter i u e = true := by
      unfold evLeaveFilter
      rw [he, hjoined]
      rfl
    have hupd := mongoUpdateFirst_append hprefalse e post
      (u := evLeaveUpdate u t)
    simp only [hefilter, eq_self_iff_true, if_true] at hupd
    rw [hdb]
    simp only [hupd, Option.isSome_some, if_true]
    exact ⟨_, rfl⟩
  · intro db i u t patch s c hfind hs
    obtain ⟨pre, post, hdb, hpre, hc⟩ := find?_split hfind
    have hupd := mongoUpdateFirst_append hpre c post
      (u := applyChallengePatch patch t)
    simp only [hc, eq_self_iff_true, if_true] at hupd
    unfold updateChallenge
    rw [hdb]
    simp only [hupd]
    refine ⟨by trivial, ?_⟩
    unfold applyChallengePatch
    simp [hs]

/-- The concrete patch that reactivates a cancelled challenge. -/
def reactivatePatch : ChallengePatch := { status := some "active" }

/-- Witness for C7 at concrete resources: a join against the cancelled
event is rejected, its participant can still leave, and the creator's
status patch goes through on a challenge. -/
theorem claim_C7_witness :
    joinEvent [cancelledEvent] "river-run-2" "u9" 4 = (.notActive, [cancelledEvent]) ∧
    (∃ x, (leaveEvent [cancelledEvent] "river-run-2" "u1" 4).1 = EvLeaveRes.success x) ∧
    ((updateChallenge [busyChallenge] "plastic-free-7" reactivatePatch "creator" 4).1 =
        some (applyChallengePatch reactivatePatch 4 busyChallenge) ∧
      (applyChallengePatch reactivatePatch 4 busyChallenge).status = "active") := by
  refine ⟨?_, ?_, ?_⟩
  · exact claim_C7_status_transitions.2.2.2.1 [cancelledEvent] "river-run-2" "u9" 4
      cancelledEvent (by decide) (by decide) (by decide)
  · exact claim_C7_status_transitions.2.2.2.2.1 [cancelledEvent] "river-run-2" "u1" 4
      cancelledEvent (by decide) (by decide)
  · exact claim_C7_status_transitions.2.2.2.2.2 [busyChallenge] "plastic-free-7" "creator" 4
      reactivatePatch "active" busyChallenge (by decide) rfl

/-- A concrete fresh active event with spare capacity. -/
def rejoinEvent : Event :=
  { id := "garden-b"
    title := "Garden B"
    description := "d"
    date := 100
    capacity := 3
    registeredParticipants := 0
    createdBy := "creator"
    status := "active"
    participants := []
    updatedAt := 0 }

/-- C2 counterexample: join → leave → join by the same user does NOT
succeed the second time.  The first join and the leave succeed, but the
second join's conditional update requires that no `participants` entry
of the user exists at all (`'participants.userId': { $ne: userId }`),
and the `'left'` entry persists, so the second join fails (reported as
the full-event error). -/
theorem claim_C2_counterexample :
    (joinEvent [rejoinEvent] "garden-b" "u7" 1).1 =
      .success (some (evJoinUpdate "u7" 1 rejoinEvent)) ∧
    (leaveEvent (joinEvent [rejoinEvent] "garden-b" "u7" 1).2 "garden-b" "u7" 2).1 =
      .success (some (evLeaveUpdate "u7" 2 (evJoinUpdate "u7" 1 rejoinEvent))) ∧
    (joinEvent (leaveEvent (joinEvent [rejoinEvent] "garden-b" "u7" 1).2 "garden-b" "u7" 2).2
      "garden-b" "u7" 3).1 = .full := by decide

/-- C2 (amended): on a single-resource collection, join → leave → join
by a fresh non-creator user succeeds on the first join and the leave:
exactly one `participants` entry for the user remains afterwards, with
status `'left'`, and the count returns to its pre-join value — but the
second join fails (reported as `Full`), because the atomic join filter
excludes any user with an existing entry regardless of status. -/
theorem claim_C2_rejoin (e : Event) (u : String) (t1 t2 t3 : Nat)
    (hstatus : e.status = "active") (hcreator : e.createdBy ≠ u)
    (hfresh : ∀ p ∈ e.participants, p.userId ≠ u)
    (hroom : e.registeredParticipants < e.capacity)
    (hd1 : ¬ e.date < t1) (hd3 : ¬ e.date < t3) :
    joinEvent [e] e.id u t1 =
      (.success (some (evJoinUpdate u t1 e)), [evJoinUpdate u t1 e]) ∧
    leaveEvent [evJoinUpdate u t1 e] e.id u t2 =
      (.success (some (evLeaveUpdate u t2 (evJoinUpdate u t1 e))),
        [evLeaveUpdate u t2 (evJoinUpdate u t1 e)]) ∧
    joinEvent [evLeaveUpdate u t2 (evJoinUpdate u t1 e)] e.id u t3 =
      (.full, [evLeaveUpdate u t2 (evJoinUpdate u t1 e)]) ∧
    (evLeaveUpdate u t2 (evJoinUpdate u t1 e)).participants =
      e.participants ++ [⟨u, t1, "left"⟩] ∧
    (evLeaveUpdate u t2 (evJoinUpdate u t1 e)).registeredParticipants =
      e.registeredParticipants := by
  have hparts : (evLeaveUpdate u t2 (evJoinUpdate u t1 e)).participants =
      e.participants ++ [⟨u, t1, "left"⟩] := by
    unfold evLeaveUpdate evJoinUpdate
    simp only [List.map_append]
    congr 1
    · exact map_id_of_forall (fun p hp => by simp [hfresh p hp])
    · simp
  have hcount : (evLeaveUpdate u t2 (evJoinUpdate u t1 e)).registeredParticipants =
      e.registeredParticipants := by
    unfold evLeaveUpdate evJoinUpdate
    simp only []
    omega
  have hj1 : joinEvent [e] e.id u t1 =
      (.success (some (evJoinUpdate u t1 e)), [evJoinUpdate u t1 e]) := by
    unfold joinEvent
    have hfind1 : findEvent [e] e.id = some e := by
      unfold findEvent
      rw [List.find?_cons_of_pos _ (by simp)]
    rw [hfind1]
    have h1 : (e.createdBy == u) = false := by simp [hcreator]
    have h2 : (e.status != "active") = false := by simp [hstatus]
    have h3 : e.participants.any (fun p => p.userId == u && p.status == "joined") = false := by
      rw [List.any_eq_false]
      intro p hp
      simp [hfresh p hp]
    have hfilter : evJoinFilter e.id u e.capacity e = true := by
      unfold evJoinFilter
      simp only [beq_self_eq_true, Bool.true_and, Bool.and_eq_true, decide_eq_true_eq,
        List.all_eq_true, bne_iff_ne, ne_eq, beq_iff_eq]
      exact ⟨⟨hroom, hstatus⟩, hfresh⟩
    simp only [h1, Bool.false_eq_true, if_false, h2, if_neg hd1, h3,
      mongoUpdateFirst, hfilter, if_true, Option.isSome_some]
    unfold findEvent
    rw [List.find?_cons_of_pos _ (by simp [evJoinUpdate])]
  have hj2 : leaveEvent [evJoinUpdate u t1 e] e.id u t2 =
      (.success (some (evLeaveUpdate u t2 (evJoinUpdate u t1 e))),
        [evLeaveUpdate u t2 (evJoinUpdate u t1 e)]) := by
    unfold leaveEvent
    have hfind2 : findEvent [evJoinUpdate u t1 e] e.id = some (evJoinUpdate u t1 e) := by
      unfold findEvent
      rw [List.find?_cons_of_pos _ (by simp [evJoinUpdate])]
    rw [hfind2]
    have hany : (evJoinUpdate u t1 e).participants.any
        (fun p => p.userId == u && p.status == "joined") = true := by
      unfold evJoinUpdate
      simp
    have hfilter : evLeaveFilter e.id u (evJoinUpdate u t1 e) = true := by
      unfold evLeaveFilter
      rw [hany]
      simp [evJoinUpdate]
    simp only [hany, if_true, mongoUpdateFirst, hfilter, Option.isSome_some]
    unfold findEvent
    rw [List.find?_cons_of_pos _ (by simp [evLeaveUpdate, evJoinUpdate])]
  have hj3 : joinEvent [evLeaveUpdate u t2 (evJoinUpdate u t1 e)] e.id u t3 =
      (.full, [evLeaveUpdate u t2 (evJoinUpdate u t1 e)]) := by
    unfold joinEvent
    have hfind3 : findEvent [evLeaveUpdate u t2 (evJoinUpdate u t1 e)] e.id =
        some (evLeaveUpdate u t2 (evJoinUpdate u t1 e)) := by
      unfold findEvent
      rw [List.find?_cons_of_pos _ (by simp [evLeaveUpdate, evJoinUpdate])]
    rw [hfind3]
    have h1 : ((evLeaveUpdate u t2 (evJoinUpdate u t1 e)).createdBy == u) = false := by
      simp [evLeaveUpdate, evJoinUpdate, hcreator]
    have h2 : ((evLeaveUpdate u t2 (evJoinUpdate u t1 e)).status != "active") = false := by
      simp [evLeaveUpdate, evJoinUpdate, hstatus]
    have hd3b : ¬ (evLeaveUpdate u t2 (evJoinUpdate u t1 e)).date < t3 := by
      simpa [evLeaveUpdate, evJoinUpdate] using hd3
    have h3 : (evLeaveUpdate u t2 (evJoinUpdate u t1 e)).participants.any
        (fun p => p.userId == u && p.status == "joined") = false := by
      rw [hparts, List.any_eq_false]
      intro p hp
      rcases List.mem_append.mp hp with hp | hp
      · simp [hfresh p hp]
      · rcases List.mem_singleton.mp hp with rfl
        simp
    have hfilter : evJoinFilter e.id u
        (evLeaveUpdate u t2 (evJoinUpdate u t1 e)).capacity
        (evLeaveUpdate u t2 (evJoinUpdate u t1 e)) = false := by
      unfold evJoinFilter
      have hall : (evLeaveUpdate u t2 (evJoinUpdate u t1 e)).participants.all
          (fun p => p.userId != u) = false := by
        rw [hparts, List.all_eq_false]
        exact ⟨⟨u, t1, "left"⟩, List.mem_append.mpr (Or.inr (List.mem_singleton.mpr rfl)),
          by simp⟩
      rw [hall, Bool.and_false]
    simp only [h1, Bool.false_eq_true, if_false, h2, if_neg hd3b, h3,
      mongoUpdateFirst, hfilter, if_false, Option.isSome_none]
  exact ⟨hj1, hj2, hj3, hparts, hcount⟩

/-- Witness for C2 at the concrete fresh event. -/
theorem claim_C2_witness :
    joinEvent [rejoinEvent] "garden-b" "u8" 1 =
      (.success (some (evJoinUpdate "u8" 1 rejoinEvent)), [evJoinUpdate "u8" 1 rejoinEvent]) ∧
    leaveEvent [evJoinUpdate "u8" 1 rejoinEvent] "garden-b" "u8" 2 =
      (.success (some (evLeaveUpdate "u8" 2 (evJoinUpdate "u8" 1 rejoinEvent))),
        [evLeaveUpdate "u8" 2 (evJoinUpdate "u8" 1 rejoinEvent)]) ∧
    joinEvent [evLeaveUpdate "u8" 2 (evJoinUpdate "u8" 1 rejoinEvent)] "garden-b" "u8" 3 =
      (.full, [evLeaveUpdate "u8" 2 (evJoinUpdate "u8" 1 rejoinEvent)]) ∧
    (evLeaveUpdate "u8" 2 (evJoinUpdate "u8" 1 rejoinEvent)).participants =
      rejoinEvent.participants ++ [⟨"u8", 1, "left"⟩] ∧
    (evLeaveUpdate "u8" 2 (evJoinUpdate "u8" 1 rejoinEvent)).registeredParticipants =
      rejoinEvent.registeredParticipants := by
  exact claim_C2_rejoin rejoinEvent "u8" 1 2 3 (by decide) (by decide) (by decide)
    (by decide) (by decide) (by decide)

theorem some_eq_some_elim {α : Type} {e : α} (P : α → Prop) :
    (∃ x, (some e : Option α) = some x ∧ P x) ↔ P e := by
  constructor
  · rintro ⟨x, hx, hP⟩
    cases hx
    exact hP
  · intro hP
    exact ⟨e, rfl, hP⟩

/-- When ids are unique, the conditional join update matches a document
exactly when the document found by id also satisfies the capacity and
no-entry-for-the-user conditions (its status being already checked). -/
theorem evJoin_isSome_iff (db : List Event) (i u : String) (now : Nat) (e : Event)
    (hnodup : (db.map Event.id).Nodup) (hfind : findEvent db i = some e)
    (hstatus : e.status = "active") :
    (mongoUpdateFirst (evJoinFilter i u e.capacity) (evJoinUpdate u now) db).1.isSome = true ↔
      (e.registeredParticipants < e.capacity ∧ ∀ p ∈ e.participants, p.userId ≠ u) := by
  obtain ⟨pre, post, hdb, hpre, he⟩ := find?_split hfind
  have hne := nodup_split_ne Event.id (hdb ▸ hnodup)
  have hei : e.id = i := by simpa using he
  rw [mongoUpdateFirst_isSome_eq_any, List.any_eq_true]
  constructor
  · rintro ⟨x, hx, hfx⟩
    obtain ⟨hxid, hxcap, _, hxfresh⟩ := evJoinFilter_parts hfx
    have hxe : x = e := by
      rw [hdb] at hx
      rcases List.mem_append.mp hx with hx | hx
      · exact absurd (hxid.trans hei.symm) (hne.1 x hx)
      · rcases List.mem_cons.mp hx with rfl | hx
        · rfl
        · exact absurd (hxid.trans hei.symm) (hne.2 x hx)
    subst hxe
    exact ⟨hxcap, hxfresh⟩
  · rintro ⟨hcap, hfresh⟩
    refine ⟨e, hdb ▸ List.mem_append.mpr (Or.inr (List.mem_cons_self e post)), ?_⟩
    unfold evJoinFilter
    simp only [Bool.and_eq_true, beq_iff_eq, decide_eq_true_eq, List.all_eq_true,
      bne_iff_ne, ne_eq]
    exact ⟨⟨⟨hei, hcap⟩, hstatus⟩, fun p hp h => hfresh p hp h⟩

/-- C4 (amended): for events the `NotFound` / `CreatorCannotJoin` /
`NotActive` / past-event / `AlreadyJoined` outcomes are decided by the
pre-checks on the initially read document, in that order; every
no-match of the atomic conditional update is then reported as the Full
error, which happens exactly when the capacity bound is reached OR any
`participants` entry for the caller exists at all (of any status) —
there is no re-read after failure; for challenges, every no-match of
the conditional update throws the `ReferenceError` of the undefined
`collection` instead of producing a typed kind. -/
theorem claim_C4_failure_kinds (db : List Event) (i u : String) (now : Nat)
    (hnodup : (db.map Event.id).Nodup) :
    ((joinEvent db i u now).1 = .notFound ↔ findEvent db i = none) ∧
    ((joinEvent db i u now).1 = .creatorCannotJoin ↔
      ∃ e, findEvent db i = some e ∧ e.createdBy = u) ∧
    ((joinEvent db i u now).1 = .notActive ↔
      ∃ e, findEvent db i = some e ∧ e.createdBy ≠ u ∧ e.status ≠ "active") ∧
    ((joinEvent db i u now).1 = .pastEvent ↔
      ∃ e, findEvent db i = some e ∧ e.createdBy ≠ u ∧ e.status = "active" ∧
        e.date < now) ∧
    ((joinEvent db i u now).1 = .alreadyJoined ↔
      ∃ e, findEvent db i = some e ∧ e.createdBy ≠ u ∧ e.status = "active" ∧
        ¬ e.date < now ∧ ∃ p ∈ e.participants, p.userId = u ∧ p.status = "joined") ∧
    ((joinEvent db i u now).1 = .full ↔
      ∃ e, findEvent db i = some e ∧ e.createdBy ≠ u ∧ e.status = "active" ∧
        ¬ e.date < now ∧ (∀ p ∈ e.participants, ¬(p.userId = u ∧ p.status = "joined")) ∧
        (e.capacity ≤ e.registeredParticipants ∨ ∃ p ∈ e.participants, p.userId = u)) ∧
    (∀ (cdb : List Challenge) (ci cu : String) (ct : Nat),
      ((joinChallenge cdb ci cu ct).1 =
          Except.error (JsError.referenceError "collection is not defined") ↔
        ∀ c ∈ cdb, chJoinFilter ci cu c = false)) := by
  have hch : ∀ (cdb : List Challenge) (ci cu : String) (ct : Nat),
      ((joinChallenge cdb ci cu ct).1 =
          Except.error (JsError.referenceError "collection is not defined") ↔
        ∀ c ∈ cdb, chJoinFilter ci cu c = false) := by
    intro cdb ci cu ct
    unfold joinChallenge
    by_cases hS : (mongoUpdateFirst (chJoinFilter ci cu) (chJoinUpdate cu ct) cdb).1.isSome
      = true
    · simp only [hS, if_true]
      constructor
      · intro h
        exact absurd h (by simp)
      · intro hall
        rw [mongoUpdateFirst_isSome_eq_any] at hS
        rcases List.any_eq_true.mp hS with ⟨c, hc, hct⟩
        rw [hall c hc] at hct
        cases hct
    · simp only [Bool.not_eq_true] at hS
      simp only [hS, Bool.false_eq_true, if_false]
      refine iff_of_true (by trivial) ?_
      rw [mongoUpdateFirst_isSome_eq_any] at hS
      intro c hc
      have := List.any_eq_false.mp hS c hc
      simpa using this
  rcases hfind : findEvent db i with _ | e
  · have hres : (joinEvent db i u now).1 = .notFound := by
      unfold joinEvent
      rw [hfind]
    refine ⟨iff_of_true hres rfl, ?_, ?_, ?_, ?_, ?_, hch⟩ <;>
      exact iff_of_false (by simp [hres]) (by rintro ⟨x, hx, _⟩; cases hx)
  · by_cases h1 : e.createdBy = u
    · have hres : (joinEvent db i u now).1 = .creatorCannotJoin := by
        unfold joinEvent
        rw [hfind]
        simp [h1]
      refine ⟨iff_of_false (by simp [hres]) (by simp), ?_, ?_, ?_, ?_, ?_, hch⟩ <;>
        rw [some_eq_some_elim]
      · exact iff_of_true hres h1
      · exact iff_of_false (by simp [hres]) (by rintro ⟨hc, _⟩; exact hc h1)
      · exact iff_of_false (by simp [hres]) (by rintro ⟨hc, _⟩; exact hc h1)
      · exact iff_of_false (by simp [hres]) (by rintro ⟨hc, _⟩; exact hc h1)
      · exact iff_of_false (by simp [hres]) (by rintro ⟨hc, _⟩; exact hc h1)
    · by_cases h2 : e.status = "active"
      · by_cases h3 : e.date < now
        · have hres : (joinEvent db i u now).1 = .pastEvent := by
            unfold joinEvent
            rw [hfind]
            simp [h1, h2, h3]
          refine ⟨iff_of_false (by simp [hres]) (by simp), ?_, ?_, ?_, ?_, ?_, hch⟩ <;>
            rw [some_eq_some_elim]
          · exact iff_of_false (by simp [hres]) (fun hc => h1 hc)
          · exact iff_of_false (by simp [hres]) (by rintro ⟨_, hs⟩; exact hs h2)
          · exact iff_of_true hres ⟨h1, h2, h3⟩
          · exact iff_of_false (by simp [hres]) (by rintro ⟨_, _, hnp, _⟩; exact hnp h3)
          · exact iff_of_false (by simp [hres]) (by rintro ⟨_, _, hnp, _⟩; exact hnp h3)
        · by_cases h4 : e.participants.any
              (fun p => p.userId == u && p.status == "joined") = true
          · have hres : (joinEvent db i u now).1 = .alreadyJoined := by
              unfold joinEvent
              rw [hfind]
              simp [h1, h2, h3, h4]
            have h4p : ∃ p ∈ e.participants, p.userId = u ∧ p.status = "joined" := by
              rcases List.any_eq_true.mp h4 with ⟨p, hp, hpt⟩
              have := (Bool.and_eq_true _ _).mp hpt
              exact ⟨p, hp, eq_of_beq this.1, eq_of_beq this.2⟩
            refine ⟨iff_of_false (by simp [hres]) (by simp),
              ?_, ?_, ?_, ?_, ?_, hch⟩ <;> rw [some_eq_some_elim]
            · exact iff_of_false (by simp [hres]) (fun hc => h1 hc)
            · exact iff_of_false (by simp [hres]) (by rintro ⟨_, hs⟩; exact hs h2)
            · exact iff_of_false (by simp [hres]) (by rintro ⟨_, _, hp⟩; exact h3 hp)
            · exact iff_of_true hres ⟨h1, h2, h3, h4p⟩
            · exact iff_of_false (by simp [hres])
                (by rintro ⟨_, _, _, hnone, _⟩
                    rcases h4p with ⟨p, hp, hpu, hps⟩
                    exact hnone p hp ⟨hpu, hps⟩)
          · simp only [Bool.not_eq_true] at h4
            have h4p : ∀ p ∈ e.participants, ¬(p.userId = u ∧ p.status = "joined") := by
              intro p hp hand
              have := List.any_eq_false.mp h4 p hp
              simp [hand.1, hand.2] at this
            have hiff := evJoin_isSome_iff db i u now e hnodup hfind h2
            by_cases h5 : e.registeredParticipants < e.capacity ∧
                ∀ p ∈ e.participants, p.userId ≠ u
            · have hS : (mongoUpdateFirst (evJoinFilter i u e.capacity)
                  (evJoinUpdate u now) db).1.isSome = true := hiff.mpr h5
              have hres : (joinEvent db i u now).1
                  = .success (findEvent (mongoUpdateFirst (evJoinFilter i u e.capacity)
                      (evJoinUpdate u now) db).2 i) := by
                unfold joinEvent
                rw [hfind]
                simp [h1, h2, h3, h4, hS]
              refine ⟨iff_of_false (by simp [hres]) (by simp),
                ?_, ?_, ?_, ?_, ?_, hch⟩ <;> rw [some_eq_some_elim]
              · exact iff_of_false (by simp [hres]) (fun hc => h1 hc)
              · exact iff_of_false (by simp [hres]) (by rintro ⟨_, hs⟩; exact hs h2)
              · exact iff_of_false (by simp [hres]) (by rintro ⟨_, _, hp⟩; exact h3 hp)
              · exact iff_of_false (by simp [hres])
                  (by rintro ⟨_, _, _, ⟨p, hp, hpu, hps⟩⟩; exact h4p p hp ⟨hpu, hps⟩)
              · exact iff_of_false (by simp [hres])
                  (by rintro ⟨_, _, _, _, hor⟩
                      rcases hor with hle | ⟨p, hp, hpu⟩
                      · omega
                      · exact h5.2 p hp hpu)
            · have hS : (mongoUpdateFirst (evJoinFilter i u e.capacity)
                  (evJoinUpdate u now) db).1.isSome = false := by
                rcases hb : (mongoUpdateFirst (evJoinFilter i u e.capacity)
                    (evJoinUpdate u now) db).1.isSome with _ | _
                · rfl
                · exact absurd (hiff.mp hb) h5
              have hres : (joinEvent db i u now).1 = .full := by
                unfold joinEvent
                rw [hfind]
                simp [h1, h2, h3, h4, hS]
              have hor : e.capacity ≤ e.registeredParticipants ∨
                  ∃ p ∈ e.participants, p.userId = u := by
                by_cases hcap : e.registeredParticipants < e.capacity
                · refine Or.inr ?_
                  by_contra hno
                  push_neg at hno
                  exact h5 ⟨hcap, hno⟩
                · exact Or.inl (by omega)
              refine ⟨iff_of_false (by simp [hres]) (by simp),
                ?_, ?_, ?_, ?_, ?_, hch⟩ <;> rw [some_eq_some_elim]
              · exact iff_of_false (by simp [hres]) (fun hc => h1 hc)
              · exact iff_of_false (by simp [hres]) (by rintro ⟨_, hs⟩; exact hs h2)
              · exact iff_of_false (by simp [hres]) (by rintro ⟨_, _, hp⟩; exact h3 hp)
              · exact iff_of_false (by simp [hres])
                  (by rintro ⟨_, _, _, ⟨p, hp, hpu, hps⟩⟩; exact h4p p hp ⟨hpu, hps⟩)
              · exact iff_of_true hres ⟨h1, h2, h3, h4p, hor⟩
      · have hres : (joinEvent db i u now).1 = .notActive := by
          unfold joinEvent
          rw [hfind]
          simp [h1, h2]
        refine ⟨iff_of_false (by simp [hres]) (by simp), ?_, ?_, ?_, ?_, ?_, hch⟩ <;>
          rw [some_eq_some_elim]
        · exact iff_of_false (by simp [hres]) (fun hc => h1 hc)
        · exact iff_of_true hres ⟨h1, h2⟩
        · exact iff_of_false (by simp [hres]) (by rintro ⟨_, hs, _⟩; exact h2 hs)
        · exact iff_of_false (by simp [hres]) (by rintro ⟨_, hs, _⟩; exact h2 hs)
        · exact iff_of_false (by simp [hres]) (by rintro ⟨_, hs, _⟩; exact h2 hs)

/-- A concrete active event, far from full, where the caller `u2` has
a `'left'` entry from an earlier leave. -/
def leftEntryEvent : Event :=
  { id := "cleanup-x"
    title := "Cleanup"
    description := "d"
    date := 100
    capacity := 5
    registeredParticipants := 1
    createdBy := "creator"
    status := "active"
    participants := [⟨"u9", 1, "joined"⟩, ⟨"u2", 2, "left"⟩]
    updatedAt := 2 }

/-- C4 counterexample: the Full error is NOT returned exactly when the
capacity bound is reached — here the event has 1 of 5 spots taken, yet
the join by `u2` (who has only a `'left'` entry) reports the full-event
error, because the conditional update's no-match is always mapped to
that error without any re-read. -/
theorem claim_C4_counterexample :
    leftEntryEvent.registeredParticipants < leftEntryEvent.capacity ∧
    (joinEvent [leftEntryEvent] "cleanup-x" "u2" 10).1 = .full := by decide

/-- Witness for C4: the Full characterization instantiated at the
concrete event with a left entry. -/
theorem claim_C4_witness :
    ([leftEntryEvent].map Event.id).Nodup ∧
    ((joinEvent [leftEntryEvent] "cleanup-x" "u2" 10).1 = .full ↔
      ∃ e, findEvent [leftEntryEvent] "cleanup-x" = some e ∧ e.createdBy ≠ "u2" ∧
        e.status = "active" ∧ ¬ e.date < 10 ∧
        (∀ p ∈ e.participants, ¬(p.userId = "u2" ∧ p.status = "joined")) ∧
        (e.capacity ≤ e.registeredParticipants ∨ ∃ p ∈ e.participants, p.userId = "u2")) :=
  ⟨by decide,
    (claim_C4_failure_kinds [leftEntryEvent] "cleanup-x" "u2" 10 (by decide)).2.2.2.2.2.1⟩

/-! ### C3: the capacity bound -/

theorem mongoUpdateFirst_cases {α : Type} (p : α → Bool) (u : α → α) :
    ∀ (db : List α),
      ((mongoUpdateFirst p u db).1 = none ∧ (mongoUpdateFirst p u db).2 = db) ∨
      ∃ x pre post, db = pre ++ x :: post ∧ p x = true ∧ (∀ y ∈ pre, p y = false) ∧
        (mongoUpdateFirst p u db).1 = some (u x) ∧
        (mongoUpdateFirst p u db).2 = pre ++ u x :: post := by
  intro db
  induction db with
  | nil => exact Or.inl ⟨rfl, rfl⟩
  | cons x rest ih =>
    by_cases hx : p x = true
    · refine Or.inr ⟨x, [], rest, rfl, hx, by simp, ?_, ?_⟩ <;>
        simp [mongoUpdateFirst, hx]
    · simp only [Bool.not_eq_true] at hx
      rcases ih with ⟨h1, h2⟩ | ⟨z, pre, post, hsplit, hz, hpre, h1, h2⟩
      · refine Or.inl ⟨?_, ?_⟩ <;>
          simp [mongoUpdateFirst, hx, h1, h2]
      · refine Or.inr ⟨z, x :: pre, post, by simp [hsplit], hz, ?_, ?_, ?_⟩
        · intro y hy
          rcases List.mem_cons.mp hy with hy | hy
          · exact hy ▸ hx
          · exact hpre y hy
        · simp [mongoUpdateFirst, hx, h1]
        · simp [mongoUpdateFirst, hx, h2]

/-- Well-formedness of an operation's inputs: creation payloads carry a
non-negative capacity (the HTTP layer validates this). -/
def evOpWf : EvOp → Prop
  | .create d _ _ => 0 ≤ d.capacity
  | _ => True

theorem evCap_step (db : List Event) (op : EvOp) (hinv : EvInv db)
    (hcap : ∀ e ∈ db, e.registeredParticipants ≤ e.capacity) (hwf : evOpWf op) :
    ∀ e ∈ evStep db op, e.registeredParticipants ≤ e.capacity := by
  have hunique := List.inj_on_of_nodup_map hinv.1
  cases op with
  | create d uid t =>
    show ∀ e ∈ (createEvent db d uid t).2, _
    unfold createEvent
    by_cases hdup : db.any (fun x => x.id == generateEventId d.title t) = true
    · simpa [hdup] using hcap
    · simp only [Bool.not_eq_true] at hdup
      simp only [hdup, Bool.false_eq_true, if_false]
      intro e he
      rcases List.mem_append.mp he with he | he
      · exact hcap e he
      · rcases List.mem_singleton.mp he with rfl
        exact hwf
  | join i uid t =>
    show ∀ e ∈ (joinEvent db i uid t).2, _
    unfold joinEvent
    rcases hfind : findEvent db i with _ | event
    · exact hcap
    · obtain ⟨pre0, post0, hdb0, hpre0, hfe⟩ := find?_split hfind
      have hevmem : event ∈ db := hdb0 ▸ List.mem_append.mpr (Or.inr (List.mem_cons_self _ _))
      simp only []
      split
      · exact hcap
      · split
        · exact hcap
        · split
          · exact hcap
          · split
            · exact hcap
            · split
              · rcases mongoUpdateFirst_cases (evJoinFilter i uid event.capacity)
                  (evJoinUpdate uid t) db with ⟨_, h2⟩ | ⟨x, pre, post, hsplit, hpx, _, _, h2⟩
                · rw [h2]; exact hcap
                · rw [h2]
                  obtain ⟨hxid, hxcap, _, _⟩ := evJoinFilter_parts hpx
                  have hxmem : x ∈ db :=
                    hsplit ▸ List.mem_append.mpr (Or.inr (List.mem_cons_self _ _))
                  have hfeid : event.id = i := by simpa using hfe
                  have hxev : x = event := hunique hxmem hevmem (hxid.trans hfeid.symm)
                  intro e he
                  rcases List.mem_append.mp he with he | he
                  · exact hcap e (hsplit ▸ List.mem_append.mpr (Or.inl he))
                  · rcases List.mem_cons.mp he with rfl | he
                    · unfold evJoinUpdate
                      simp only []
                      subst hxev
                      omega
                    · exact hcap e
                        (hsplit ▸ List.mem_append.mpr (Or.inr (List.mem_cons_of_mem _ he)))
              · exact hcap
  | leave i uid t =>
    show ∀ e ∈ (leaveEvent db i uid t).2, _
    unfold leaveEvent
    rcases hfind : findEvent db i with _ | event
    · exact hcap
    · simp only []
      split
      · split
        · rcases mongoUpdateFirst_cases (evLeaveFilter i uid) (evLeaveUpdate uid t) db with
            ⟨_, h2⟩ | ⟨x, pre, post, hsplit, _, _, _, h2⟩
          · rw [h2]; exact hcap
          · rw [h2]
            intro e he
            have hxmem : x ∈ db :=
              hsplit ▸ List.mem_append.mpr (Or.inr (List.mem_cons_self _ _))
            rcases List.mem_append.mp he with he | he
            · exact hcap e (hsplit ▸ List.mem_append.mpr (Or.inl he))
            · rcases List.mem_cons.mp he with rfl | he
              · have := hcap x hxmem
                unfold evLeaveUpdate
                simp only []
                omega
              · exact hcap e
                  (hsplit ▸ List.mem_append.mpr (Or.inr (List.mem_cons_of_mem _ he)))
        · exact hcap
      · exact hcap
  | update i patch uid t =>
    show ∀ e ∈ (updateEvent db i patch uid t).2, _
    unfold updateEvent
    rcases hfind : findEvent db i with _ | event
    · exact hcap
    · obtain ⟨pre0, post0, hdb0, hpre0, hfe⟩ := find?_split hfind
      have hevmem : event ∈ db := hdb0 ▸ List.mem_append.mpr (Or.inr (List.mem_cons_self _ _))
      simp only []
      split
      · exact hcap
      · split
        · exact hcap
        · split
          · exact hcap
          · rename_i hguard hdate
            rcases mongoUpdateFirst_cases (fun e => e.id == i) (applyEventPatch patch t) db
              with ⟨_, h2⟩ | ⟨x, pre, post, hsplit, hpx, _, _, h2⟩
            · rw [h2]; exact hcap
            · rw [h2]
              have hxmem : x ∈ db :=
                hsplit ▸ List.mem_append.mpr (Or.inr (List.mem_cons_self _ _))
              have hfeid : event.id = i := by simpa using hfe
              have hxid : x.id = i := by simpa using hpx
              have hxev : x = event := hunique hxmem hevmem (hxid.trans hfeid.symm)
              intro e he
              rcases List.mem_append.mp he with he | he
              · exact hcap e (hsplit ▸ List.mem_append.mpr (Or.inl he))
              · rcases List.mem_cons.mp he with rfl | he
                · unfold applyEventPatch
                  simp only []
                  rcases hk : patch.capacity with _ | k
                  · simp only [hk, Option.getD_none]
                    have := hcap x hxmem
                    exact this
                  · simp only [hk, Option.getD_some]
                    rw [hk] at hguard
                    simp only [Option.any_some] at hguard
                    have : ¬ (k < event.registeredParticipants) := by
                      intro hlt
                      exact hguard (by simpa using hlt)
                    rw [hxev]
                    omega
                · exact hcap e
                    (hsplit ▸ List.mem_append.mpr (Or.inr (List.mem_cons_of_mem _ he)))
  | delete i uid t =>
    show ∀ e ∈ (deleteEvent db i uid t).2, _
    unfold deleteEvent
    rcases hfind : findEvent db i with _ | event
    · exact hcap
    · simp only []
      split
      · exact hcap
      · split
        · rcases mongoUpdateFirst_cases (fun e => e.id == i)
            (fun e => { e with status := "cancelled", updatedAt := t }) db with
            ⟨_, h2⟩ | ⟨x, pre, post, hsplit, _, _, _, h2⟩
          · rw [h2]; exact hcap
          · rw [h2]
            intro e he
            have hxmem : x ∈ db :=
              hsplit ▸ List.mem_append.mpr (Or.inr (List.mem_cons_self _ _))
            rcases List.mem_append.mp he with he | he
            · exact hcap e (hsplit ▸ List.mem_append.mpr (Or.inl he))
            · rcases List.mem_cons.mp he with rfl | he
              · exact hcap x hxmem
              · exact hcap e
                  (hsplit ▸ List.mem_append.mpr (Or.inr (List.mem_cons_of_mem _ he)))
        · intro e he
          exact hcap e ((mongoDeleteFirst_sublist _ db).subset he)

theorem evCap_run (ops : List EvOp) :
    ∀ (db : List Event), (∀ op ∈ ops, evOpWf op) → EvInv db →
      (∀ e ∈ db, e.registeredParticipants ≤ e.capacity) →
      ∀ e ∈ evRun db ops, e.registeredParticipants ≤ e.capacity := by
  induction ops with
  | nil => intro db _ _ hcap; exact hcap
  | cons op rest ih =>
    intro db hwf hinv hcap
    exact ih (evStep db op) (fun o ho => hwf o (List.mem_cons_of_mem op ho))
      (evInv_step db op hinv)
      (evCap_step db op hinv hcap (hwf op (List.mem_cons_self op rest)))

/-- Whether a join outcome is the success outcome. -/
def isSuccess : EvJoinRes → Bool
  | .success _ => true
  | _ => false

/-- Sequential joins by a list of users against one event id. -/
def joinAll (db : List Event) (eventId : String) (users : List String) (now : Nat) :
    List EvJoinRes × List Event :=
  match users with
  | [] => ([], db)
  | u :: rest =>
    let r := joinEvent db eventId u now
    let rr := joinAll r.2 eventId rest now
    (r.1 :: rr.1, rr.2)

/-- A join on a single-document collection by a fresh non-creator user
with a spare spot succeeds and appends the joined entry. -/
theorem joinEvent_single_success (e : Event) (u : String) (now : Nat)
    (hstatus : e.status = "active") (hcreator : e.createdBy ≠ u)
    (hfresh : ∀ p ∈ e.participants, p.userId ≠ u)
    (hroom : e.registeredParticipants < e.capacity) (hdate : ¬ e.date < now) :
    joinEvent [e] e.id u now =
      (.success (some (evJoinUpdate u now e)), [evJoinUpdate u now e]) := by
  unfold joinEvent
  have hfind1 : findEvent [e] e.id = some e := by
    unfold findEvent
    rw [List.find?_cons_of_pos _ (by simp)]
  rw [hfind1]
  have h1 : (e.createdBy == u) = false := by simp [hcreator]
  have h2 : (e.status != "active") = false := by simp [hstatus]
  have h3 : e.participants.any (fun p => p.userId == u && p.status == "joined") = false := by
    rw [List.any_eq_false]
    intro p hp
    simp [hfresh p hp]
  have hfilter : evJoinFilter e.id u e.capacity e = true := by
    unfold evJoinFilter
    simp only [beq_self_eq_true, Bool.true_and, Bool.and_eq_true, decide_eq_true_eq,
      List.all_eq_true, bne_iff_ne, ne_eq, beq_iff_eq]
    exact ⟨⟨hroom, hstatus⟩, hfresh⟩
  simp only [h1, Bool.false_eq_true, if_false, h2, if_neg hdate, h3,
    mongoUpdateFirst, hfilter, if_true, Option.isSome_some]
  unfold findEvent
  rw [List.find?_cons_of_pos _ (by simp [evJoinUpdate])]

/-- A join on a single-document collection by a fresh non-creator user
with no spare spot fails with the full-event error, leaving the
collection unchanged. -/
theorem joinEvent_single_full (e : Event) (u : String) (now : Nat)
    (hstatus : e.status = "active") (hcreator : e.createdBy ≠ u)
    (hfresh : ∀ p ∈ e.participants, p.userId ≠ u)
    (hfull : ¬ e.registeredParticipants < e.capacity) (hdate : ¬ e.date < now) :
    joinEvent [e] e.id u now = (.full, [e]) := by
  unfold joinEvent
  have hfind1 : findEvent [e] e.id = some e := by
    unfold findEvent
    rw [List.find?_cons_of_pos _ (by simp)]
  rw [hfind1]
  have h1 : (e.createdBy == u) = false := by simp [hcreator]
  have h2 : (e.status != "active") = false := by simp [hstatus]
  have h3 : e.participants.any (fun p => p.userId == u && p.status == "joined") = false := by
    rw [List.any_eq_false]
    intro p hp
    simp [hfresh p hp]
  have hfilter : evJoinFilter e.id u e.capacity e = false := by
    unfold evJoinFilter
    have : (decide (e.registeredParticipants < e.capacity)) = false := by
      simpa using hfull
    rw [this]
    simp
  simp only [h1, Bool.false_eq_true, if_false, h2, if_neg hdate, h3,
    mongoUpdateFirst, hfilter, if_false, Option.isSome_none]

theorem joinAll_single (now : Nat) :
    ∀ (users : List String) (e : Event),
      e.status = "active" → ¬ e.date < now → users.Nodup →
      (∀ v ∈ users, e.createdBy ≠ v) →
      (∀ v ∈ users, ∀ p ∈ e.participants, p.userId ≠ v) →
      ((joinAll [e] e.id users now).1.countP (fun r => isSuccess r) =
        min (e.capacity - e.registeredParticipants).toNat users.length) ∧
      (∀ r ∈ (joinAll [e] e.id users now).1, isSuccess r = true ∨ r = EvJoinRes.full) ∧
      (∃ e2, (joinAll [e] e.id users now).2 = [e2] ∧
        e2.registeredParticipants = e.registeredParticipants +
          min (e.capacity - e.registeredParticipants).toNat users.length) := by
  intro users
  induction users with
  | nil =>
    intro e _ _ _ _ _
    refine ⟨by simp [joinAll], by simp [joinAll], e, rfl, by simp⟩
  | cons u rest ih =>
    intro e hstatus hdate hnodup hcreator hfresh
    have hcu : e.createdBy ≠ u := hcreator u (List.mem_cons_self u rest)
    have hfu : ∀ p ∈ e.participants, p.userId ≠ u :=
      hfresh u (List.mem_cons_self u rest)
    by_cases hroom : e.registeredParticipants < e.capacity
    · have hj := joinEvent_single_success e u now hstatus hcu hfu hroom hdate
      have hrec := ih (evJoinUpdate u now e) hstatus hdate (List.nodup_cons.mp hnodup).2
        (fun v hv => hcreator v (List.mem_cons_of_mem u hv))
        (fun v hv p hp => by
          unfold evJoinUpdate at hp
          simp only [] at hp
          rcases List.mem_append.mp hp with hp | hp
          · exact hfresh v (List.mem_cons_of_mem u hv) p hp
          · rcases List.mem_singleton.mp hp with rfl
            intro hvu
            have huv : u = v := hvu
            exact (List.nodup_cons.mp hnodup).1 (by rw [huv]; exact hv))
      have hid : (evJoinUpdate u now e).id = e.id := rfl
      rw [hid] at hrec
      show _ ∧ _ ∧ _
      unfold joinAll
      simp only [hj]
      obtain ⟨hcnt, hall, e2, he2, he2c⟩ := hrec
      refine ⟨?_, ?_, e2, he2, ?_⟩
      · rw [List.countP_cons, hcnt]
        simp only [isSuccess, eq_self_iff_true, if_true]
        have hcap2 : (evJoinUpdate u now e).capacity = e.capacity := rfl
        have hcnt2 : (evJoinUpdate u now e).registeredParticipants =
            e.registeredParticipants + 1 := rfl
        rw [hcap2, hcnt2]
        simp only [List.length_cons, Nat.min_def]
        split_ifs <;> omega
      · intro r hr
        rcases List.mem_cons.mp hr with rfl | hr
        · exact Or.inl rfl
        · exact hall r hr
      · rw [he2c]
        have hcap2 : (evJoinUpdate u now e).capacity = e.capacity := rfl
        have hcnt2 : (evJoinUpdate u now e).registeredParticipants =
            e.registeredParticipants + 1 := rfl
        rw [hcap2, hcnt2]
        simp only [List.length_cons, Nat.min_def]
        split_ifs <;> omega
    · have hj := joinEvent_single_full e u now hstatus hcu hfu hroom hdate
      have hrec := ih e hstatus hdate (List.nodup_cons.mp hnodup).2
        (fun v hv => hcreator v (List.mem_cons_of_mem u hv))
        (fun v hv => hfresh v (List.mem_cons_of_mem u hv))
      show _ ∧ _ ∧ _
      unfold joinAll
      simp only [hj]
      obtain ⟨hcnt, hall, e2, he2, he2c⟩ := hrec
      refine ⟨?_, ?_, e2, he2, ?_⟩
      · rw [List.countP_cons, hcnt]
        simp only [isSuccess, Bool.false_eq_true, if_false]
        simp only [List.length_cons, Nat.min_def]
        split_ifs <;> omega
      · intro r hr
        rcases List.mem_cons.mp hr with rfl | hr
        · exact Or.inr rfl
        · exact hall r hr
      · rw [he2c]
        simp only [List.length_cons, Nat.min_def]
        split_ifs <;> omega

theorem countP_full_of_dichotomy :
    ∀ (l : List EvJoinRes), (∀ r ∈ l, isSuccess r = true ∨ r = EvJoinRes.full) →
      l.countP (fun r => r == EvJoinRes.full) =
        l.length - l.countP (fun r => isSuccess r) := by
  intro l
  induction l with
  | nil => intro _; rfl
  | cons r rest ih =>
    intro h
    have hrest := ih (fun x hx => h x (List.mem_cons_of_mem r hx))
    have hsle : rest.countP (fun x => isSuccess x) ≤ rest.length := List.countP_le_length _
    rcases h r (List.mem_cons_self r rest) with hr | hr
    · cases r with
      | success x =>
        rw [List.countP_cons, List.countP_cons, List.length_cons]
        have e1 : ((EvJoinRes.success x) == EvJoinRes.full) = false := rfl
        have e2 : isSuccess (EvJoinRes.success x) = true := rfl
        simp only [e1, e2, Bool.false_eq_true, if_false, eq_self_iff_true, if_true]
        omega
      | notFound => simp [isSuccess] at hr
      | creatorCannotJoin => simp [isSuccess] at hr
      | notActive => simp [isSuccess] at hr
      | pastEvent => simp [isSuccess] at hr
      | alreadyJoined => simp [isSuccess] at hr
      | full => simp [isSuccess] at hr
    · subst hr
      rw [List.countP_cons, List.countP_cons, List.length_cons]
      have e1 : (EvJoinRes.full == EvJoinRes.full) = true := rfl
      have e2 : isSuccess EvJoinRes.full = false := rfl
      simp only [e1, e2, Bool.false_eq_true, if_false, eq_self_iff_true, if_true]
      omega

theorem joinAll_length (i : String) (now : Nat) :
    ∀ (users : List String) (db : List Event),
      (joinAll db i users now).1.length = users.length := by
  intro users
  induction users with
  | nil => intro db; rfl
  | cons u rest ih =>
    intro db
    unfold joinAll
    simp [ih]

/-- C3: the active-participant count never exceeds capacity after any
sequence of operations (each join applies only under the atomic
condition count < capacity, update guards capacity reductions); and on
a fresh event with capacity K, sequential join attempts by N distinct
fresh non-creator users produce exactly min(K, N) successes, all other
outcomes are the Full error, and the final count is min(K, N). -/
theorem claim_C3_capacity_bound :
    (∀ (ops : List EvOp), (∀ op ∈ ops, evOpWf op) →
      ∀ e ∈ evRun [] ops, e.registeredParticipants ≤ e.capacity) ∧
    (∀ (users : List String) (e : Event) (now : Nat),
      e.status = "active" → ¬ e.date < now → users.Nodup →
      (∀ v ∈ users, e.createdBy ≠ v) →
      (∀ v ∈ users, ∀ p ∈ e.participants, p.userId ≠ v) →
      e.registeredParticipants = 0 →
      ((joinAll [e] e.id users now).1.countP (fun r => isSuccess r) =
        min e.capacity.toNat users.length) ∧
      ((joinAll [e] e.id users now).1.countP (fun r => r == EvJoinRes.full) =
        users.length - min e.capacity.toNat users.length) ∧
      (∃ e2, (joinAll [e] e.id users now).2 = [e2] ∧
        e2.registeredParticipants = (min e.capacity.toNat users.length : Nat))) := by
  constructor
  · intro ops hwf
    exact evCap_run ops [] hwf ⟨List.nodup_nil, by simp⟩ (by simp)
  · intro users e now hstatus hdate hnodup hcreator hfresh hzero
    obtain ⟨hcnt, hall, e2, he2, he2c⟩ :=
      joinAll_single now users e hstatus hdate hnodup hcreator hfresh
    have htoNat : (e.capacity - e.registeredParticipants).toNat = e.capacity.toNat := by
      omega
    refine ⟨by rw [hcnt, htoNat], ?_, e2, he2, ?_⟩
    · rw [countP_full_of_dichotomy _ hall, hcnt, joinAll_length e.id now users [e], hzero]
      simp
    · rw [he2c, hzero]
      simp

/-- A concrete fresh active event with capacity 1. -/
def capOneEvent : Event :=
  { id := "compost-day-1"
    title := "Compost Day"
    description := "d"
    date := 50
    capacity := 1
    registeredParticipants := 0
    createdBy := "creator"
    status := "active"
    participants := []
    updatedAt := 0 }

/-- Witness for C3: two fresh users against a capacity-1 event — one
success, one Full, final count 1. -/
theorem claim_C3_witness :
    ((joinAll [capOneEvent] capOneEvent.id ["u1", "u2"] 5).1.countP
      (fun r => isSuccess r) = 1) ∧
    ((joinAll [capOneEvent] capOneEvent.id ["u1", "u2"] 5).1.countP
      (fun r => r == EvJoinRes.full) = 1) ∧
    (∃ e2, (joinAll [capOneEvent] capOneEvent.id ["u1", "u2"] 5).2 = [e2] ∧
      e2.registeredParticipants = 1) := by
  have h := claim_C3_capacity_bound.2 ["u1", "u2"] capOneEvent 5 (by decide) (by decide)
    (by decide) (by decide) (by decide) (by decide)
  obtain ⟨h1, h2, e2, he2, hc⟩ := h
  refine ⟨?_, ?_, e2, he2, ?_⟩
  · rw [h1]; decide
  · rw [h2]; decide
  · rw [hc]; decide

/-! ### C6: slug generation -/

/-- The timestamp suffix makes the generated id injective in the clock
reading, for a fixed title. -/
theorem slug_suffix_inj (s : String) (t1 t2 : Nat)
    (h : s ++ "-" ++ decimalString t1 = s ++ "-" ++ decimalString t2) : t1 = t2 := by
  have hdata := congrArg String.data h
  simp only [String.data_append, List.append_assoc] at hdata
  have h1 := List.append_cancel_left hdata
  have h2 := List.append_cancel_left h1
  exact decimalString_injective (by
    apply String.ext
    exact h2)

/-- A concrete event-creation payload. -/
def treeDayData : EventData :=
  { title := "Tree Planting Day"
    description := "d"
    date := 100
    capacity := 5 }

/-- C6 counterexample: two resources created from the identical title
at the same clock reading get the SAME id, not distinct slugs — there
is no store probing and no incrementing suffix, only the slugified
title plus the timestamp; the second insert then collides on the
unique index instead of receiving a `-1` suffix. -/
theorem claim_C6_counterexample :
    generateEventId "Tree Planting Day" 7 = generateEventId "Tree Planting Day" 7 ∧
    generateEventId "Tree Planting Day" 7 = "tree-planting-day-7" ∧
    generateChallengeId "Tree Planting Day" 7 = "tree-planting-day-7" ∧
    (createEvent (createEvent [] treeDayData "creator" 7).2 treeDayData "creator" 7).1
      = none := by
  refine ⟨rfl, by decide, by decide, by decide⟩

/-- C6 (amended): ids are the slugified title plus a decimal timestamp
suffix; two resources created from identical titles receive distinct
ids exactly when their clock readings differ — uniqueness comes from
the timestamp, not from probing the store for collisions. -/
theorem claim_C6_slug_timestamp (title : String) (t1 t2 : Nat) (h : t1 ≠ t2) :
    generateEventId title t1 ≠ generateEventId title t2 ∧
    generateChallengeId title t1 ≠ generateChallengeId title t2 := by
  constructor
  · intro heq
    exact h (slug_suffix_inj _ t1 t2 heq)
  · intro heq
    exact h (slug_suffix_inj _ t1 t2 heq)

/-- Witness for C6 at a concrete title and two distinct timestamps. -/
theorem claim_C6_witness :
    (1 : Nat) ≠ 2 ∧
    (generateEventId "Tree Day" 1 ≠ generateEventId "Tree Day" 2 ∧
      generateChallengeId "Tree Day" 1 ≠ generateChallengeId "Tree Day" 2) :=
  ⟨by decide, claim_C6_slug_timestamp "Tree Day" 1 2 (by decide)⟩
